import Mathlib

/-!
Verification of the tool-calling orchestration core of the
`extended_openai_conversation` Home Assistant integration.

The development shallowly embeds the Python source:

* `model_capabilities.py`   — capability detection (pure function on the model name);
* `tools_orchestrator.py`   — per-turn budgets, result stringification/truncation,
  and the `execute_tool_call` control path;
* `conversation.py`         — the Chat Completions loop (`_run_chat_flow`) and the
  Responses loop (`_handle_responses_tool_calls` as entered from
  `_run_responses_flow`), modelled over an arbitrary stream of model replies and
  an arbitrary tool-executor environment;
* `tools_builtin.py`        — `FunctionExecutor.validate_entity_ids`,
  `NativeFunctionExecutor.execute_service_single`, and
  `ScriptFunctionExecutor.to_arguments`;
* `responses_adapter.py`    — `_format_tool_call` and the tool-call collection
  performed by `responses_to_chat_like`.

Machine floats from the source (monotonic clock values, timeouts) are modelled
as rationals; Python dictionaries are modelled either as association lists over
a JSON-like value type or as structures holding exactly the fields the source
reads.  Python strings are Lean strings, except in the truncation helper where
the character-list view is used for direct reasoning about lengths.
-/

namespace EOC

/-! ## Capability detection (`model_capabilities.py`) -/

/-- Python `str.lower()` on one character (the ASCII range, which covers the
model names the detector compares against). -/
def pyLowerChar (c : Char) : Char :=
  if 'A' ≤ c ∧ c ≤ 'Z' then Char.ofNat (c.toNat + 32) else c

/-- Python `str.lower()` on the character-list view of a string. -/
def pyLower (s : List Char) : List Char := s.map pyLowerChar

/-- Python `str.startswith(p)` on character lists. -/
def charsStartWith : List Char → List Char → Bool
  | _, [] => true
  | [], _ :: _ => false
  | c :: cs, p :: ps => c = p && charsStartWith cs ps

/-- The `REASONING_PREFIXES` list from `model_capabilities.py`. -/
def reasoningFamilies : List String := ["gpt-5", "o1", "o3", "o4"]

/-- The `REASONING_MODELS_EXPLICIT` set from `model_capabilities.py`. -/
def reasoningModelsExplicit : List String := ["gpt-4.1-reasoning"]

/-- The capability record returned by `detect_model_capabilities`. -/
structure ModelCapabilities where
  is_reasoning : Bool
  accepts_temperature : Bool
  chat_max_tokens_param : String
  responses_max_tokens_param : String
deriving DecidableEq

/-- The function `detect_model_capabilities(model)`: `model or ""` then `.lower()`;
reasoning iff the lowered name starts with a known family name or is in the
explicit list; `accepts_temperature = not is_reasoning`; the chat token-limit
field is `max_completion_tokens` for reasoning models, else `max_tokens`. -/
def detect_model_capabilities (model : Option String) : ModelCapabilities :=
  let name := pyLower (model.getD "").data
  let isReasoning :=
    reasoningFamilies.any (fun p => charsStartWith name p.data) ||
      reasoningModelsExplicit.any (fun m => name = m.data)
  { is_reasoning := isReasoning
    accepts_temperature := !isReasoning
    chat_max_tokens_param :=
      if isReasoning then "max_completion_tokens" else "max_tokens"
    responses_max_tokens_param := "max_output_tokens" }

/-! ## Result stringification (`ToolsOrchestrator._stringify_result`)

Texts are viewed as `List Char` so that Python's length, slicing and
whitespace-stripping operations can be stated directly. -/

/-- Python `str.lstrip()` on the character list view. -/
def pyLStrip (s : List Char) : List Char := s.dropWhile Char.isWhitespace

/-- Python `str.rstrip()` on the character list view. -/
def pyRStrip (s : List Char) : List Char :=
  (s.reverse.dropWhile Char.isWhitespace).reverse

/-- Python `str.strip()` on the character list view. -/
def pyStrip (s : List Char) : List Char := pyRStrip (pyLStrip s)

/-- Python slicing `s[:k]` for a possibly negative bound `k`:
a negative `k` keeps all but the last `-k` characters (clamped at zero). -/
def pySliceTo (s : List Char) (k : Int) : List Char :=
  if 0 ≤ k then s.take k.toNat else s.take (s.length - (-k).toNat)

/-- The `(truncated)` marker appended by `_stringify_result`. -/
def truncationMarker : List Char := "... (truncated)".data

/-- The method `ToolsOrchestrator._stringify_result` from `tools_orchestrator.py`, on an
already-string result (non-string results are first `json.dumps`-serialized by
the source; the claim quantifies over results after stringification).  The text
is stripped; when a cap is configured (truthy, i.e. nonzero) and the stripped
text is longer than the cap, the text is cut at `cap - 16`, right-stripped and
suffixed with `"... (truncated)"`. -/
def stringify_result (cap : Nat) (result : List Char) : List Char :=
  let text := pyStrip result
  if cap ≠ 0 ∧ cap < text.length then
    pyRStrip (pySliceTo text ((cap : Int) - 16)) ++ truncationMarker
  else text

/-! ## Orchestrator budgets (`tools_orchestrator.py`)

`OrchState` carries the per-turn mutable counters of `ToolsOrchestrator`
together with the configuration values read in `__init__`.  Clock readings
(`time.monotonic()`) are rationals supplied by the environment. -/

/-- Per-turn orchestrator state: configured budgets plus the mutable
`_call_count` counter and the `_started` clock reading. -/
structure OrchState where
  maxCalls : Nat
  maxChainDepth : Nat
  callTimeout : ℚ
  resultCap : Nat
  callCount : Nat
  startedAt : ℚ
deriving DecidableEq

/-- The method `ToolsOrchestrator.reset` (the part visible to the budget model):
zero the call counter and restart the clock. -/
def OrchState.reset (st : OrchState) (now : ℚ) : OrchState :=
  { st with callCount := 0, startedAt := now }

/-- The method `ToolsOrchestrator._ensure_call_budget`: raise
`ToolExecutionError("Maximum tool calls exceeded")` when `_max_calls` is truthy
and `_call_count >= _max_calls`. -/
def ensure_call_budget (st : OrchState) : Except String Unit :=
  if st.maxCalls ≠ 0 ∧ st.maxCalls ≤ st.callCount then
    .error "Maximum tool calls exceeded"
  else .ok ()

/-- The method `ToolsOrchestrator._ensure_time_budget`: skipped entirely when the per-call
timeout is at or below zero; otherwise raise when the elapsed time strictly
exceeds `timeout * max(1, max_chain_depth)`. -/
def ensure_time_budget (st : OrchState) (now : ℚ) : Except String Unit :=
  if st.callTimeout ≤ 0 then .ok ()
  else
    if st.callTimeout * (max 1 st.maxChainDepth : Nat) < now - st.startedAt then
      .error "Tool chain time budget exceeded"
    else .ok ()

/-- Outcome of the awaited executor call inside `execute_tool_call`:
a finished value, a raised `HomeAssistantError`/`ToolExecutionError`
(carrying `str(err)`), or an `asyncio.TimeoutError` from `asyncio.wait_for`. -/
inductive InvokeOutcome where
  | ok (value : String)
  | raised (msg : String)
  | timedOut
deriving DecidableEq

/-- The environment `execute_tool_call` runs against: whether a tool name is in
the runtime map, the result of `_prepare_arguments` (error message on invalid
arguments), and the executor outcome for the prepared call. -/
structure ToolEnv where
  runtimeKnown : String → Bool
  prepare : String → Except String Unit
  invoke : String → InvokeOutcome

/-- Result of one `execute_tool_call`: the returned text or the raised
`ToolExecutionError` message, the successor state, and whether the executor
was actually invoked (i.e. `self._invoke` was awaited). -/
structure ExecStep where
  out : Except String String
  st : OrchState
  invoked : Bool

/-- The method `ToolsOrchestrator.execute_tool_call`: check the call budget, then the
time budget, increment `_call_count`, resolve the runtime entry, prepare the
arguments, and only then invoke the executor under the per-call timeout.
A timeout becomes `"Tool <name> timed out"`; a raised executor error becomes
its message (or `"Tool <name> failed"` when the message is empty); a finished
result is stringified via `_stringify_result` with the configured cap. -/
def execute_tool_call (env : ToolEnv) (st : OrchState) (now : ℚ)
    (name : String) : ExecStep :=
  match ensure_call_budget st with
  | .error e => ⟨.error e, st, false⟩
  | .ok _ =>
    match ensure_time_budget st now with
    | .error e => ⟨.error e, st, false⟩
    | .ok _ =>
      let st1 : OrchState := { st with callCount := st.callCount + 1 }
      -- source message quotes the name; the quote characters are elided here
      if !env.runtimeKnown name then
        ⟨.error ("Unknown tool " ++ name), st1, false⟩
      else
        match env.prepare name with
        | .error e =>
          ⟨.error ("Invalid arguments for " ++ name ++ ": " ++ e), st1, false⟩
        | .ok _ =>
          match env.invoke name with
          | .timedOut => ⟨.error ("Tool " ++ name ++ " timed out"), st1, true⟩
          | .raised m =>
            ⟨.error (if m = "" then "Tool " ++ name ++ " failed" else m),
              st1, true⟩
          | .ok v =>
            ⟨.ok (String.mk (stringify_result st.resultCap v.data)), st1, true⟩

/-- Run a sequence of requested tool calls (each a name with the clock reading
at which it arrives) through `execute_tool_call`, returning the final state and
the number of calls for which the executor was actually invoked. -/
def runToolCalls (env : ToolEnv) : List (String × ℚ) → OrchState → OrchState × Nat
  | [], st => (st, 0)
  | (name, now) :: rest, st =>
    let step := execute_tool_call env st now name
    let (stFin, n) := runToolCalls env rest step.st
    (stFin, (if step.invoked then 1 else 0) + n)

/-! ## Python truthiness helpers for optional strings

Several call sites use `a or b` chains over values that are `None` or strings;
`none` and the empty string are falsy. -/

/-- Python truthiness of an optional string. -/
def optTruthy : Option String → Bool
  | none => false
  | some s => s ≠ ""

/-- Python `a or b` on optional strings. -/
def pyOrOpt (a b : Option String) : Option String :=
  if optTruthy a then a else b

/-- Python `a or d` where `d` is a plain string default. -/
def pyOrD (a : Option String) (d : String) : String :=
  match a with
  | some s => if s = "" then d else s
  | none => d

/-! ## The Chat Completions loop (`_run_chat_flow` in `conversation.py`)

The model endpoint is an arbitrary stream `replies : Nat → ChatReply`: the
`t`-th `client.chat.completions.create` call returns `replies t`.  The
orchestrator's `execute_tool_call` is abstracted as
`exec ∈ Nat → Nat → ChatToolCall → Except String String` (round index, index
of the call within the round, the call): `.error` models a raised
`ToolExecutionError`. -/

/-- One tool call on a Chat Completions message (`message.tool_calls[i]`):
`getattr(call, "id", None)`, `getattr(func, "name", None)`,
`getattr(func, "arguments", "{}")`. -/
structure ChatToolCall where
  id : Option String
  name : Option String
  arguments : String
deriving DecidableEq

/-- One Chat Completions reply: `message.content or ""` and
`getattr(message, "tool_calls", None) or []`. -/
structure ChatReply where
  content : String
  toolCalls : List ChatToolCall
deriving DecidableEq

/-- Entries of the accumulated `messages` list of `_run_chat_flow`. -/
inductive ChatMsg where
  | system (content : String)
  | user (content : String)
  | assistant (content : String) (toolCalls : List ChatToolCall)
  | tool (callId : Option String) (content : String)
deriving DecidableEq

/-- The suffix returned when the chat loop stops at the chain-depth limit. -/
def chainLimitSuffix : String := "Tool chain limit reached; unable to continue."

/-- The per-round tool-execution block of `_run_chat_flow` (lines 500–533):
calls with a falsy name are skipped (`if not call_name: continue`); otherwise
`execute_tool_call` is awaited, a raised `ToolExecutionError` is converted to
`"Tool <name> failed: <err>"`, and a `role:"tool"` message is appended.
Returns the appended messages together with the (round, index) pairs of the
calls actually submitted to the orchestrator. -/
def chatProcessCalls (exec : Nat → Nat → ChatToolCall → Except String String)
    (depth : Nat) : Nat → List ChatToolCall → List ChatMsg × List (Nat × Nat)
  | _, [] => ([], [])
  | i, call :: rest =>
    if optTruthy call.name then
      let name := call.name.getD ""
      let output :=
        match exec depth i call with
        | .ok v => v
        | .error e => "Tool " ++ name ++ " failed: " ++ e
      let (msgs, execs) := chatProcessCalls exec depth (i + 1) rest
      (ChatMsg.tool call.id output :: msgs, (depth, i) :: execs)
    else
      chatProcessCalls exec depth (i + 1) rest

/-- Result of one turn of the chat flow: the returned text, the number of
`client.chat.completions.create` round-trips performed, the final accumulated
`messages` list, and all (round, index) executions submitted. -/
structure ChatTurn where
  text : String
  trips : Nat
  messages : List ChatMsg
  execs : List (Nat × Nat)
deriving DecidableEq

/-- The `while True` loop of `_run_chat_flow`.  Each iteration performs one
model round-trip (`replies trips`).  No pending calls: return the content.
`depth >= max_chain_depth`: return the content with `chainLimitSuffix`
appended (after a newline when the content is nonempty) — no further
round-trip and no tool execution.  Otherwise: append the assistant entry and
the per-call tool results, and continue with `depth + 1`. -/
def chatLoop (replies : Nat → ChatReply)
    (exec : Nat → Nat → ChatToolCall → Except String String) (maxChain : Nat)
    (depth trips : Nat) (msgs : List ChatMsg) (execs : List (Nat × Nat)) :
    ChatTurn :=
  let reply := replies trips
  if reply.toolCalls = [] then ⟨reply.content, trips + 1, msgs, execs⟩
  else if depth ≥ maxChain then
    ⟨(if reply.content = "" then chainLimitSuffix
      else reply.content ++ "\n" ++ chainLimitSuffix), trips + 1, msgs, execs⟩
  else
    let (toolMsgs, roundExecs) := chatProcessCalls exec depth 0 reply.toolCalls
    chatLoop replies exec maxChain (depth + 1) (trips + 1)
      (msgs ++ ChatMsg.assistant reply.content reply.toolCalls :: toolMsgs)
      (execs ++ roundExecs)
termination_by maxChain - depth
decreasing_by omega

/-- The method `_run_chat_flow`: seed the transcript with the system prompt (when
nonempty) and the user text, then run the loop from depth 0. -/
def run_chat_flow (sysPrompt userText : String) (replies : Nat → ChatReply)
    (exec : Nat → Nat → ChatToolCall → Except String String)
    (maxChain : Nat) : ChatTurn :=
  chatLoop replies exec maxChain 0 0
    ((if sysPrompt = "" then [] else [ChatMsg.system sysPrompt]) ++
      [ChatMsg.user userText]) []

/-! ## The Responses loop (`_handle_responses_tool_calls` in `conversation.py`)

`extract_function_calls_from_response` is imported by `conversation.py` from
`responses_adapter` but absent from the source copy of that module; a reply is
therefore modelled as already carrying its extracted function calls, which is
all the loop observes.  The stream `replies : Nat → RespReply` gives the reply
of the `t`-th `client.responses.create` round-trip. -/

/-- One extracted function call: `call.get("call_id")`, `call.get("id")`,
`call.get("name")`, `call.get("arguments")`. -/
structure RespCall where
  callId : Option String
  itemId : Option String
  name : Option String
  arguments : String
deriving DecidableEq

/-- One Responses reply: the extracted function calls plus the text content
that text extraction would walk. -/
structure RespReply where
  text : String
  calls : List RespCall
deriving DecidableEq

/-- A `function_call_output` item submitted back to the model. -/
structure FuncOutput where
  callId : String
  output : String
deriving DecidableEq

/-- The message used for calls synthesized at the depth limit. -/
def haltedMessage : String := "Tool execution halted: maximum depth reached."

/-- The synthetic outputs built by the depth-limit branch (lines 339–347):
for each pending call, `call.get("call_id") or call.get("id") or str(idx)`
with the halted message. -/
def haltOutputs (calls : List RespCall) : List FuncOutput :=
  (List.range calls.length).zip calls |>.map fun p =>
    ⟨pyOrD (pyOrOpt p.2.callId p.2.itemId) (toString p.1), haltedMessage⟩

/-- The per-round execution block of the Responses loop (lines 357–393):
calls with a falsy name are skipped without producing an output; otherwise
`execute_tool_call` is awaited (a raised `ToolExecutionError` becomes
`"Tool <name> failed: <err>"`) and a `function_call_output` with
`call_id or name or "unknown"` is appended. -/
def respProcessCalls (exec : Nat → Nat → RespCall → Except String String)
    (depth : Nat) : Nat → List RespCall → List FuncOutput × List (Nat × Nat)
  | _, [] => ([], [])
  | i, call :: rest =>
    let callId := pyOrOpt (pyOrOpt call.callId call.itemId) call.name
    if optTruthy call.name then
      let name := call.name.getD ""
      let output :=
        match exec depth i call with
        | .ok v => v
        | .error e => "Tool " ++ name ++ " failed: " ++ e
      let (outs, execs) := respProcessCalls exec depth (i + 1) rest
      (⟨pyOrD callId (pyOrD call.name "unknown"), output⟩ :: outs,
        (depth, i) :: execs)
    else
      respProcessCalls exec depth (i + 1) rest

/-- Result of one turn of the Responses flow: the final reply, the total
number of `client.responses.create` round-trips (the initial request of
`_run_responses_flow` included), the `input` payload of every follow-up
round-trip, whether the depth-limit branch was taken, and all (round, index)
executions submitted. -/
structure RespTurn where
  final : RespReply
  trips : Nat
  submitted : List (List FuncOutput)
  halted : Bool
  execs : List (Nat × Nat)
deriving DecidableEq

/-- The `while True` loop of `_handle_responses_tool_calls`, entered with the
reply `r` of the previous round-trip and `trips` round-trips already spent.
No extracted calls: return `r`.  `depth >= max_chain_depth`: submit the
synthetic halt outputs for every pending call — executing none of them — in
one extra round-trip and return its reply.  Otherwise execute the round's
calls; when they produced no outputs (all names falsy) return `r` without a
round-trip, else submit the outputs and continue with `depth + 1`. -/
def respLoop (replies : Nat → RespReply)
    (exec : Nat → Nat → RespCall → Except String String) (maxChain : Nat)
    (r : RespReply) (depth trips : Nat) (submitted : List (List FuncOutput))
    (execs : List (Nat × Nat)) : RespTurn :=
  if r.calls = [] then ⟨r, trips, submitted, false, execs⟩
  else if depth ≥ maxChain then
    ⟨replies trips, trips + 1, submitted ++ [haltOutputs r.calls], true, execs⟩
  else
    let (outs, roundExecs) := respProcessCalls exec depth 0 r.calls
    if outs = [] then ⟨r, trips, submitted, false, execs ++ roundExecs⟩
    else
      respLoop replies exec maxChain (replies trips) (depth + 1) (trips + 1)
        (submitted ++ [outs]) (execs ++ roundExecs)
termination_by maxChain - depth
decreasing_by omega

/-- The method `_run_responses_flow` followed by `_handle_responses_tool_calls`: the
initial `client.responses.create` consumes `replies 0` (one round-trip), then
the loop starts at depth 0. -/
def run_responses_flow (replies : Nat → RespReply)
    (exec : Nat → Nat → RespCall → Except String String)
    (maxChain : Nat) : RespTurn :=
  respLoop replies exec maxChain (replies 0) 0 1 [] []

/-- Modelled from the spec: `response_text_from_responses_result` is imported
by `conversation.py` from `responses_adapter` but missing from the source copy
of that module.  Per spec §4.4 (`Done` state), the final text is extracted
from the last reply and "Empty text after extraction is replaced with an
apology placeholder rather than returned as empty"; the extracted text is
modelled as the reply's text and the placeholder as a fixed nonempty string. -/
def response_text_from_responses_result (r : RespReply) : String :=
  if r.text = "" then "Sorry, I could not produce a response." else r.text

/-! ## Native service execution (`tools_builtin.py`)

`NativeFunctionExecutor.execute_service_single` and
`FunctionExecutor.validate_entity_ids`, over a Home Assistant environment
holding the loaded states, the service registry, the entity/device registries
and the Assist exposure predicate. -/

/-- Sorted insertion for strings (`<` on strings). -/
def insertSorted (a : String) : List String → List String
  | [] => [a]
  | b :: bs => if a < b then a :: b :: bs else b :: insertSorted a bs

/-- Python `sorted(...)` on a list of strings. -/
def sortStrings (l : List String) : List String := l.foldr insertSorted []

/-- First-occurrence deduplication (the observable content of a Python set
built from a list, once sorted). -/
def dedupStrings (l : List String) : List String :=
  l.foldl (fun acc x => if x ∈ acc then acc else acc ++ [x]) []

/-- Python `sorted(set(l))`. -/
def sortedSet (l : List String) : List String := sortStrings (dedupStrings l)

/-- Python `s.split(",")` on the character-list view. -/
def splitComma : List Char → List Char → List (List Char)
  | [], acc => [acc.reverse]
  | c :: cs, acc =>
    if c = ',' then acc.reverse :: splitComma cs []
    else splitComma cs (c :: acc)

/-- Python `[e.strip() for e in entity_id.split(",")]`. -/
def splitEntityIds (s : String) : List String :=
  (splitComma s.data []).map (fun e => String.mk (pyStrip e))

/-- The value of an `entity_id`-like field: Python `None`, a string, or a
list of strings. -/
inductive TargetVal where
  | null
  | str (s : String)
  | list (l : List String)
deriving DecidableEq

/-- Python truthiness of a `TargetVal`. -/
def TargetVal.truthy : TargetVal → Bool
  | .null => false
  | .str s => s ≠ ""
  | .list l => l ≠ []

/-- The helper `_as_list` from `execute_service_single`, composed with the
`[a for a in _as_list(x) if a]` truthiness filter applied to area/device ids. -/
def TargetVal.asIdList : TargetVal → List String
  | .null => []
  | .str s => if s ≠ "" then [s] else []
  | .list l => l.filter (· ≠ "")

/-- An entity-registry entry (`entity_id`, `device_id`, `area_id`). -/
structure RegEntry where
  entityId : String
  deviceId : Option String
  areaId : Option String
deriving DecidableEq

/-- The slice of Home Assistant that `execute_service_single` reads:
loaded states, the service registry, the entity registry, the device → area
map, the Assist exposure predicate, and the outcome `async_call` would have
(`.error msg` models a raised `HomeAssistantError`). -/
structure HassEnv where
  statesLoaded : List String
  hasService : String → String → Bool
  entReg : List RegEntry
  deviceArea : String → Option String
  shouldExpose : String → Bool
  callOutcome : String → String → List String → Except String Unit

/-- The arguments of one service call, holding exactly the fields the source
reads.  A field value of `none` models an absent dictionary key (`.get`
default), while `some .null` models a key present with value `None`. -/
structure ServiceArgs where
  domain : String
  service : String
  dataEntityId : Option TargetVal
  topEntityId : TargetVal
  areaId : TargetVal
  deviceId : TargetVal
deriving DecidableEq

/-- The typed errors `execute_service_single` can raise before dispatch. -/
inductive SvcError where
  | callServiceError (domain service : String)
  | serviceNotFound (domain service : String)
  | entityNotFound (ids : List String)
  | entityNotExposed (ids : List String)
deriving DecidableEq

/-- Outcome of `execute_service_single`: a raised error, a structured
`{"error": msg}` payload, or the `{"success": True}` payload. -/
inductive SvcOutcome where
  | raised (e : SvcError)
  | errorPayload (msg : String)
  | success
deriving DecidableEq

/-- A dispatched `hass.services.async_call` with its final entity targets. -/
structure Dispatch where
  domain : String
  service : String
  entityIds : List String
deriving DecidableEq

/-- The method `FunctionExecutor.validate_entity_ids`: raise `EntityNotFound` when any id
has no loaded state, then `EntityNotExposed(sorted(missing))` when some ids
are outside the exposed set. -/
def validate_entity_ids (env : HassEnv) (entityIds : List String)
    (exposed : List String) : Except SvcError Unit :=
  if entityIds.any (fun e => ¬ e ∈ env.statesLoaded) then
    .error (.entityNotFound entityIds)
  else
    let missing := sortedSet (entityIds.filter (¬ · ∈ exposed))
    if missing ≠ [] then .error (.entityNotExposed missing) else .ok ()

/-- The normalised explicit entity target:
`service_data.get("entity_id", service_argument.get("entity_id"))`, with a
string split on commas into a stripped list. -/
def ServiceArgs.entityIdNorm (args : ServiceArgs) : TargetVal :=
  let raw :=
    match args.dataEntityId with
    | some v => v
    | none => args.topEntityId
  match raw with
  | .str s => .list (splitEntityIds s)
  | v => v

/-- The explicit entity list `entity_id or []` fed to `validate_entity_ids`. -/
def ServiceArgs.entityList (args : ServiceArgs) : List String :=
  match args.entityIdNorm with
  | .list l => l
  | _ => []

/-- Whether a registry entry's device (truthy and) sits in one of the given
areas, via the device → area map. -/
def entryDeviceMatch (env : HassEnv) (areaIds : List String)
    (e : RegEntry) : Bool :=
  match e.deviceId with
  | some d =>
    d ≠ "" && (match env.deviceArea d with
      | some a => decide (a ∈ areaIds)
      | none => false)
  | none => false

/-- Whether a registry entry's own area (truthy and) matches an area id. -/
def entryAreaMatch (areaIds : List String) (e : RegEntry) : Bool :=
  match e.areaId with
  | some a => a ≠ "" && decide (a ∈ areaIds)
  | none => false

/-- The area/device target resolution of `execute_service_single` (lines
324–349): entities whose registry entry matches one of the device ids, or
whose area — directly or via their device — matches one of the area ids,
filtered to currently loaded entities.  Returned as the sorted set, which is
the only view the source observes. -/
def resolveTargets (env : HassEnv) (areaIds deviceIds : List String) :
    List String :=
  let byDevice := env.entReg.filter fun e =>
    deviceIds ≠ [] &&
      (match e.deviceId with
        | some d => d ≠ "" && decide (d ∈ deviceIds)
        | none => false)
  let byArea := env.entReg.filter fun e =>
    areaIds ≠ [] && (entryAreaMatch areaIds e || entryDeviceMatch env areaIds e)
  let targets := sortedSet ((byDevice ++ byArea).map RegEntry.entityId)
  targets.filter (· ∈ env.statesLoaded)

/-- The method `NativeFunctionExecutor.execute_service_single`: normalise the entity
target; raise `CallServiceError` when entity, area and device are all `None`;
raise `ServiceNotFound` for an unknown service; validate exposure of the
explicit entity ids; with explicit entities, dispatch to them (area/device
selectors dropped); with only area/device selectors, resolve the membership,
refuse with a structured error payload when any resolved loaded target is
hidden from Assist or when none remain, else dispatch to the sorted exposed
targets.  A `HomeAssistantError` from the dispatched call becomes an
`{"error": str(e)}` payload.  Returns the outcome paired with the dispatched
calls (the side effects on Home Assistant). -/
def execute_service_single (env : HassEnv) (args : ServiceArgs)
    (exposed : List String) : SvcOutcome × List Dispatch :=
  let entity := args.entityIdNorm
  if entity = .null ∧ args.areaId = .null ∧ args.deviceId = .null then
    (.raised (.callServiceError args.domain args.service), [])
  else if ¬ env.hasService args.domain args.service then
    (.raised (.serviceNotFound args.domain args.service), [])
  else
    match validate_entity_ids env args.entityList exposed with
    | .error e => (.raised e, [])
    | .ok _ =>
      if entity.truthy then
        let ids := args.entityList
        match env.callOutcome args.domain args.service ids with
        | .ok _ => (.success, [⟨args.domain, args.service, ids⟩])
        | .error e => (.errorPayload e, [⟨args.domain, args.service, ids⟩])
      else if args.areaId.truthy ∨ args.deviceId.truthy then
        let targets :=
          resolveTargets env args.areaId.asIdList args.deviceId.asIdList
        let hidden := targets.filter (fun e => ¬ env.shouldExpose e)
        if hidden ≠ [] then
          (.errorPayload ("Some targets are hidden from Assist: " ++
            String.intercalate ", " hidden), [])
        else if targets = [] then
          (.errorPayload "No exposed targets found for the provided area/device",
            [])
        else
          match env.callOutcome args.domain args.service targets with
          | .ok _ => (.success, [⟨args.domain, args.service, targets⟩])
          | .error e =>
            (.errorPayload e, [⟨args.domain, args.service, targets⟩])
      else
        let ids := args.entityList
        match env.callOutcome args.domain args.service ids with
        | .ok _ => (.success, [⟨args.domain, args.service, ids⟩])
        | .error e => (.errorPayload e, [⟨args.domain, args.service, ids⟩])

/-! ## Script argument validation (`ScriptFunctionExecutor.to_arguments`)

Arguments are an association list of string keys to values; only the string
shape of a value is observed.  `SCRIPT_ENTITY_SCHEMA` is Home Assistant core
code (external to this repository): a voluptuous schema over a fixed key set
with `sequence` required and, by voluptuous default (`PREVENT_EXTRA`), unknown
keys rejected; `FunctionExecutor.__init__` extends it with a required `type`
key.  The value-level validation of the schema (step shapes, mode names, …)
is abstracted away: the embedding validates key presence and key admissibility
only, which is what the settled claim depends on. -/

/-- An argument value: a string or anything else. -/
inductive ArgVal where
  | str (s : String)
  | other
deriving DecidableEq

/-- Key lookup in an association list (Python `dict.get`, first hit). -/
def lookupArg (args : List (String × ArgVal)) (key : String) : Option ArgVal :=
  match args.find? (fun kv => kv.1 = key) with
  | some kv => some kv.2
  | none => none

/-- Python `key in arguments`. -/
def hasKey (args : List (String × ArgVal)) (key : String) : Bool :=
  (args.find? (fun kv => kv.1 = key)).isSome

/-- The keys admitted by Home Assistant's `SCRIPT_ENTITY_SCHEMA` (external
code: `make_script_schema` over alias/trace/icon/variables/fields/sequence/
description plus mode/max/max_exceeded), extended with the `type` key added
by `FunctionExecutor.__init__`. -/
def scriptSchemaKeys : List String :=
  ["alias", "trace", "icon", "variables", "fields", "sequence", "description",
    "mode", "max", "max_exceeded", "type"]

/-- Key-level validation of the extended `SCRIPT_ENTITY_SCHEMA`: `sequence`
and `type` required, unknown keys rejected (voluptuous `PREVENT_EXTRA`). -/
def scriptSchemaOk (args : List (String × ArgVal)) : Bool :=
  hasKey args "sequence" ∧ hasKey args "type" ∧
    args.all (fun kv => kv.1 ∈ scriptSchemaKeys)

/-- The method `ScriptFunctionExecutor.to_arguments`: with a `sequence` key present,
validate against the extended schema (a voluptuous error is converted to
`InvalidFunction("script")` by `FunctionExecutor.to_arguments`); otherwise
accept only a string `entity_id` starting with `"script."`, reducing the
arguments to the `type` and `entity_id` keys; anything else raises
`InvalidFunction("script")`.  The error value carries the function type. -/
def script_to_arguments (args : List (String × ArgVal)) :
    Except String (List (String × ArgVal)) :=
  if hasKey args "sequence" then
    if scriptSchemaOk args then .ok args else .error "script"
  else
    match lookupArg args "entity_id" with
    | some (.str e) =>
      if charsStartWith e.data "script.".data then
        .ok (args.filter fun kv => kv.1 = "type" ∨ kv.1 = "entity_id")
      else .error "script"
    | _ => .error "script"

/-! ## The Responses → Chat adapter (`responses_adapter.py`)

JSON-like values model the dictionaries the adapter probes.  The fresh call
identifiers drawn from `uuid.uuid4().hex` are modelled as a stream
`hexes : Nat → String`, one entry consumed per `_format_tool_call` call. -/

/-- A JSON-like Python value. -/
inductive JV where
  | null
  | bool (b : Bool)
  | num (n : Int)
  | str (s : String)
  | arr (xs : List JV)
  | obj (kvs : List (String × JV))

/-- Python `d.get(key)` on a dictionary value (first hit, `None` default). -/
def JV.get : JV → String → JV
  | .obj kvs, key =>
    match kvs.find? (fun kv => kv.1 = key) with
    | some kv => kv.2
    | none => .null
  | _, _ => .null

/-- Whether a value is a dictionary (`isinstance(v, dict)`). -/
def JV.isObj : JV → Bool
  | .obj _ => true
  | _ => false

/-- Python truthiness of a JSON-like value. -/
def JV.truthy : JV → Bool
  | .null => false
  | .bool b => b
  | .num n => n ≠ 0
  | .str s => s ≠ ""
  | .arr xs => !xs.isEmpty
  | .obj kvs => !kvs.isEmpty

/-- Whether a value is exactly the given string (Python `v == "s"` for the
string comparisons the adapter performs). -/
def JV.isStr : JV → String → Bool
  | .str t, s => t = s
  | _, _ => false

/-- Quote a string as JSON does (escaping only the quote and backslash, which
suffices for the adapter's observable behaviour). -/
def jsonQuote (s : String) : String :=
  "\"" ++ String.mk (s.data.flatMap fun c =>
    if c = '"' ∨ c = '\\' then ['\\', c] else [c]) ++ "\""

mutual

/-- Python `json.dumps` with Python's default separators. -/
def jsonDumps : JV → String
  | .null => "null"
  | .bool b => if b then "true" else "false"
  | .num n => toString n
  | .str s => jsonQuote s
  | .arr xs => "[" ++ String.intercalate ", " (jsonDumpsList xs) ++ "]"
  | .obj kvs =>
    "\x7b" ++ String.intercalate ", " (jsonDumpsPairs kvs) ++ "\x7d"

def jsonDumpsList : List JV → List String
  | [] => []
  | x :: xs => jsonDumps x :: jsonDumpsList xs

def jsonDumpsPairs : List (String × JV) → List String
  | [] => []
  | kv :: kvs => (jsonQuote kv.1 ++ ": " ++ jsonDumps kv.2) :: jsonDumpsPairs kvs

end

/-- Python `str(v)` for the value shapes that reach the fallback branch of
`_format_tool_call` (dictionaries and lists are handled before it; their
rendering here is immaterial). -/
def pyToStr : JV → String
  | .null => "None"
  | .bool b => if b then "True" else "False"
  | .num n => toString n
  | .str s => s
  | v => jsonDumps v

/-- A formatted tool call as produced by `_format_tool_call`:
`{"id": callId, "type": ctype, "function": {"name": fname, "arguments": fargs}}`. -/
structure FmtCall where
  callId : JV
  ctype : String
  fname : JV
  fargs : JV

/-- The helper `_format_tool_call(tool_call, item)` with `fresh` the `uuid4().hex` value
drawn when no id is available.  Non-dictionary tool calls yield `None`.
The call id is `tool_call.get("id") or (item.get("id") if dict else None)`,
replaced by `"call_<hex>"` when falsy; the function payload is
`tool_call["function"]` when that key holds a dictionary, else synthesized
from the `name`/`arguments` keys; dict/list arguments are JSON-encoded,
`None` arguments become `"{}"`, other values pass through `str`; a falsy
(empty) arguments string is finally replaced by `"{}"`. -/
def itemIdOfJV (item : Option JV) : JV :=
  match item with
  | some it => if it.isObj then it.get "id" else .null
  | none => .null

/-- The string the arguments value is normalised to (lines 133–139):
dictionaries and lists are JSON-encoded, `None` becomes `"{}"`, any other
value passes through `str`. -/
def formatArgsString (args0 : JV) : String :=
  match args0 with
  | .obj kvs => jsonDumps (.obj kvs)
  | .arr xs => jsonDumps (.arr xs)
  | .null => "\x7b\x7d"
  | v => pyToStr v

/-- The function payload `_format_tool_call` reads the name and arguments
from: `tool_call["function"]` when that key holds a dictionary, else a
payload synthesized from the `name`/`arguments` keys. -/
def funcPayloadOf (toolCall : JV) : JV :=
  if (toolCall.get "function").isObj then toolCall.get "function"
  else .obj [("name", toolCall.get "name"),
             ("arguments", toolCall.get "arguments")]

/-- See the comment before `itemIdOfJV`: `_format_tool_call`, with
`itemIdOfJV` the `item.get("id") if isinstance(item, dict) else None`
fallback and `formatArgsString` the arguments normalisation; the final
`or "{}"` replaces a falsy (empty) arguments string. -/
def format_tool_call (toolCall : JV) (item : Option JV) (fresh : String) :
    Option FmtCall :=
  match toolCall with
  | .obj _ =>
    let callId0 :=
      if (toolCall.get "id").truthy then toolCall.get "id" else itemIdOfJV item
    let callId : JV :=
      if callId0.truthy then callId0 else .str ("call_" ++ fresh)
    let argsStr : String := formatArgsString ((funcPayloadOf toolCall).get "arguments")
    some ⟨callId, "function", (funcPayloadOf toolCall).get "name",
      .str (if argsStr = "" then "\x7b\x7d" else argsStr)⟩
  | _ => none

/-- The list an output item's `content` contributes to the scan:
`item.get("content") or []` guarded by `isinstance(contents, list)` (a truthy
non-list value is skipped by that guard). -/
def contentList (item : JV) : List JV :=
  match item.get "content" with
  | .arr xs => xs
  | _ => []

/-- The scan of one item's content parts for `"tool_call"` entries
(lines 37–57): each hit formats `content.get("tool_call")` against the
enclosing item, consuming one fresh hex per `_format_tool_call` call. -/
def collectContent (hexes : Nat → String) (item : JV) :
    List JV → Nat → List FmtCall × Nat
  | [], n => ([], n)
  | c :: cs, n =>
    match c with
    | .obj _ =>
      if (c.get "type").isStr "tool_call" then
        let fmt := format_tool_call (c.get "tool_call") (some item) (hexes n)
        let (rest, n1) := collectContent hexes item cs (n + 1)
        match fmt with
        | some f => (f :: rest, n1)
        | none => (rest, n1)
      else collectContent hexes item cs n
    | _ => collectContent hexes item cs n

/-- The tool calls one output item contributes: none when the item is a
text/json item (the `continue` branches), else its content-part hits followed
by the item-level `"tool_call"` hit (lines 59–62). -/
def collectItem (hexes : Nat → String) (item : JV) (n : Nat) :
    List FmtCall × Nat :=
  if (item.get "type").isStr "output_text" ∨ (item.get "type").isStr "text" ∨
      (item.get "type").isStr "output_json" then
    ([], n)
  else
    let (fromContent, n1) := collectContent hexes item (contentList item) n
    if (item.get "type").isStr "tool_call" then
      let fmt := format_tool_call (item.get "tool_call") (some item) (hexes n1)
      match fmt with
      | some f => (fromContent ++ [f], n1 + 1)
      | none => (fromContent, n1 + 1)
    else (fromContent, n1)

/-- Fold `collectItem` over the output items. -/
def collectItems (hexes : Nat → String) :
    List JV → Nat → List FmtCall × Nat
  | [], n => ([], n)
  | it :: its, n =>
    let (here, n1) := collectItem hexes it n
    let (rest, n2) := collectItems hexes its n1
    (here ++ rest, n2)

/-- The top-level `response_dict.get("tool_calls") or []` scan (lines 64–68):
each element is formatted with no enclosing item.  Iterating a truthy
dictionary yields its keys (plain strings, hence no formatted call); a truthy
non-iterable would crash the source and is modelled as empty. -/
def collectTop (hexes : Nat → String) :
    List JV → Nat → List FmtCall × Nat
  | [], n => ([], n)
  | t :: ts, n =>
    let fmt := format_tool_call t none (hexes n)
    let (rest, n1) := collectTop hexes ts (n + 1)
    match fmt with
    | some f => (f :: rest, n1)
    | none => (rest, n1)

/-- The element list of the top-level `tool_calls` field. -/
def topToolCallList (resp : JV) : List JV :=
  match resp.get "tool_calls" with
  | .arr xs => xs
  | .obj kvs => kvs.map (fun kv => JV.str kv.1)
  | _ => []

/-- The output items `response_dict.get("output") or []`. -/
def outputItems (resp : JV) : List JV :=
  match resp.get "output" with
  | .arr xs => xs
  | _ => []

/-- The text segments gathered by `responses_to_chat_like`: item-level
`output_text`/`text` items contribute their string `text`; `output_json`
items contribute the json payload (dumped when not already a string); other
items are scanned content part by content part for the same two shapes. -/
def textSegmentsOfItem (item : JV) : List String :=
  if (item.get "type").isStr "output_text" ∨ (item.get "type").isStr "text" then
    match item.get "text" with
    | .str s => [s]
    | _ => []
  else if (item.get "type").isStr "output_json" then
    match item.get "json" with
    | .str s => [s]
    | .null => []
    | v => [jsonDumps v]
  else
    (contentList item).flatMap fun c =>
      match c with
      | .obj _ =>
        if (c.get "type").isStr "output_text" ∨ (c.get "type").isStr "text" then
          match c.get "text" with
          | .str s => [s]
          | _ => []
        else if (c.get "type").isStr "output_json" then
          match c.get "json" with
          | .str s => [s]
          | .null => []
          | v => [jsonDumps v]
        else []
      | _ => []

/-- The assistant message of the chat-shaped payload built by
`responses_to_chat_like`: the concatenated text segments (falling back to a
string `output_text` field when no segment was found, and to `None` when
empty), and the collected tool calls. -/
structure ChatLikeMsg where
  content : Option String
  toolCalls : List FmtCall

/-- The function `responses_to_chat_like` restricted to its assistant message (the id,
model, usage and finish-reason plumbing of the payload does not bear on the
settled claims).  Output items are scanned for text and tool calls, then the
top-level `tool_calls` list is appended. -/
def responses_to_chat_like (hexes : Nat → String) (resp : JV) : ChatLikeMsg :=
  let items := outputItems resp
  let (fromItems, n) := collectItems hexes items 0
  let (fromTop, _) := collectTop hexes (topToolCallList resp) n
  let segments := items.flatMap textSegmentsOfItem
  let segments2 :=
    if segments = [] then
      match resp.get "output_text" with
      | .str s => [s]
      | _ => []
    else segments
  let text := String.join segments2
  ⟨if text = "" then none else some text, fromItems ++ fromTop⟩

/-! ## Concrete instances used to exercise the theorems -/

/-- A tool environment in which every call is known, validates, and
succeeds. -/
def envAllOk : ToolEnv :=
  ⟨fun _ => true, fun _ => .ok (), fun _ => .ok "done"⟩

/-- A tool environment in which every call is known and validates but times
out. -/
def envTimesOut : ToolEnv :=
  ⟨fun _ => true, fun _ => .ok (), fun _ => .timedOut⟩

/-- A freshly reset orchestrator state with `max_tool_calls = 2`,
`max_tool_chain = 3`, `tool_timeout = 12`, `tool_max_output_chars = 4000`. -/
def stBudget2 : OrchState := ⟨2, 3, 12, 4000, 0, 0⟩

/-- A freshly reset orchestrator state with a falsy `max_tool_calls` and a
zero per-call timeout. -/
def stUnbounded : OrchState := ⟨0, 3, 0, 4000, 0, 0⟩

/-- A chat model that requests one named tool call on every round, tagged
with the round-trip index. -/
def chatAlwaysCalls : Nat → ChatReply :=
  fun t => ⟨"", [⟨some (toString t), some "memory_query", "\x7b\x7d"⟩]⟩

/-- A chat-flow executor that always succeeds. -/
def chatExecOk : Nat → Nat → ChatToolCall → Except String String :=
  fun _ _ _ => .ok "done"

/-- A chat-flow executor that always raises a `ToolExecutionError`. -/
def chatExecFails : Nat → Nat → ChatToolCall → Except String String :=
  fun _ _ _ => .error "boom"

/-- A Responses model that requests one named function call on every round,
tagged with the round-trip index. -/
def respAlwaysCalls : Nat → RespReply :=
  fun t => ⟨"", [⟨some (toString t), none, some "memory_query", "\x7b\x7d"⟩]⟩

/-- A Responses-flow executor that always succeeds. -/
def respExecOk : Nat → Nat → RespCall → Except String String :=
  fun _ _ _ => .ok "done"

/-- A Home Assistant environment with no loaded states, every service
registered, empty registries and nothing exposed to Assist. -/
def hassEnvEmpty : HassEnv :=
  ⟨[], fun _ _ => true, [], fun _ => none, fun _ => false, fun _ _ _ => .ok ()⟩

/-- A service call targeting the unloaded, unexposed entity
`light.ghost`. -/
def argsGhost : ServiceArgs :=
  ⟨"light", "turn_on", none, .str "light.ghost", .null, .null⟩

/-- A Home Assistant environment with `lock.front_door` loaded but not
exposed to Assist. -/
def hassEnvFrontDoor : HassEnv :=
  ⟨["lock.front_door"], fun _ _ => true, [], fun _ => none, fun _ => false,
    fun _ _ _ => .ok ()⟩

/-- A service call targeting `lock.front_door` explicitly. -/
def argsFrontDoor : ServiceArgs :=
  ⟨"lock", "unlock", none, .str "lock.front_door", .null, .null⟩

/-- A Home Assistant environment holding one loaded, unexposed entity whose
registry entry sits in the `kitchen` area. -/
def hassEnvArea : HassEnv :=
  ⟨["light.hidden1"], fun _ _ => true,
    [⟨"light.hidden1", none, some "kitchen"⟩], fun _ => none,
    fun _ => false, fun _ _ _ => .ok ()⟩

/-- A service call targeting the `kitchen` area with no explicit entity. -/
def argsArea : ServiceArgs :=
  ⟨"light", "turn_on", none, .null, .str "kitchen", .null⟩

/-- A fixed stream of `uuid4().hex` draws. -/
def hexStream : Nat → String := fun _ => "0123456789abcdef0123456789abcdef"

/-- A Responses payload whose single output item carries a tool call with an
empty-string `arguments` value. -/
def respEmptyArgs : JV :=
  .obj [("output", .arr [
    .obj [("type", .str "tool_call"), ("id", .str "call_x"),
      ("tool_call", .obj [("name", .str "execute_service"),
        ("arguments", .str "")])]])]

/-! # Theorems -/

/-- C7: `detect_model_capabilities` is a pure, deterministic, total function:
for every model identifier `accepts_temperature` equals the negation of
`is_reasoning`; `detect("gpt-5-anything")` is reasoning-class and rejects
temperature; `detect("gpt-4o-mini")` is not reasoning-class and accepts
temperature; the same input always yields the same output. -/
theorem claim_c7_capability_detection :
    (∀ m : Option String,
      (detect_model_capabilities m).accepts_temperature =
        !(detect_model_capabilities m).is_reasoning) ∧
    (detect_model_capabilities (some "gpt-5-anything")).is_reasoning = true ∧
    (detect_model_capabilities (some "gpt-5-anything")).accepts_temperature
      = false ∧
    (detect_model_capabilities (some "gpt-4o-mini")).is_reasoning = false ∧
    (detect_model_capabilities (some "gpt-4o-mini")).accepts_temperature
      = true ∧
    (∀ m : Option String,
      detect_model_capabilities m = detect_model_capabilities m) := by
  refine ⟨fun m => rfl, ?_, ?_, ?_, ?_, fun m => rfl⟩ <;> decide

/-- C9: a falsy (zero) `max_tool_calls` makes the call-budget check a no-op,
so a turn may perform unboundedly many tool executions; a per-call timeout at
or below zero skips the aggregate time-budget check entirely; each budget
error is raised exactly when the respective configured value is positive and
the counter (resp. the elapsed time) has passed it. -/
theorem claim_c9_falsy_budgets :
    (∀ st : OrchState, st.maxCalls = 0 → ensure_call_budget st = .ok ()) ∧
    (∀ (st : OrchState) (now : ℚ), st.callTimeout ≤ 0 →
      ensure_time_budget st now = .ok ()) ∧
    (∀ st : OrchState,
      ensure_call_budget st = .error "Maximum tool calls exceeded" ↔
        st.maxCalls ≠ 0 ∧ st.maxCalls ≤ st.callCount) ∧
    (∀ (st : OrchState) (now : ℚ),
      ensure_time_budget st now = .error "Tool chain time budget exceeded" ↔
        0 < st.callTimeout ∧
          st.callTimeout * (max 1 st.maxChainDepth : Nat) <
            now - st.startedAt) ∧
    (∀ (calls : List (String × ℚ)) (st : OrchState), st.maxCalls = 0 →
      st.callTimeout ≤ 0 → (runToolCalls envAllOk calls st).2 = calls.length)
    := by
  refine ⟨?_, ?_, ?_, ?_, ?_⟩
  · intro st h
    simp [ensure_call_budget, h]
  · intro st now h
    simp [ensure_time_budget, h]
  · intro st
    by_cases hc : st.maxCalls ≠ 0 ∧ st.maxCalls ≤ st.callCount
    · simp [ensure_call_budget, hc]
    · simp only [ensure_call_budget, if_neg hc]
      exact iff_of_false (by simp) hc
  · intro st now
    unfold ensure_time_budget
    by_cases h1 : st.callTimeout ≤ 0
    · rw [if_pos h1]
      exact iff_of_false (by simp)
        (fun hh => absurd hh.1 (not_lt.mpr h1))
    · rw [if_neg h1]
      by_cases h2 :
          st.callTimeout * (max 1 st.maxChainDepth : Nat) < now - st.startedAt
      · rw [if_pos h2]
        exact iff_of_true rfl ⟨lt_of_not_le h1, h2⟩
      · rw [if_neg h2]
        exact iff_of_false (by simp) (fun hh => absurd hh.2 h2)
  · intro calls
    induction calls with
    | nil => intro st _ _; rfl
    | cons c rest ih =>
      intro st h0 ht
      have hstep : execute_tool_call envAllOk st c.2 c.1 =
          ⟨.ok (String.mk (stringify_result st.resultCap "done".data)),
            { st with callCount := st.callCount + 1 }, true⟩ := by
        simp [execute_tool_call, ensure_call_budget, ensure_time_budget,
          envAllOk, h0, ht]
      have := ih { st with callCount := st.callCount + 1 } h0 ht
      simp [runToolCalls, hstep, this, Nat.add_comm]

/-- C9 witness: the theorem applied to a state with a falsy call budget and
a zero per-call timeout — three requested calls all execute. -/
theorem claim_c9_falsy_budgets_witness :
    ensure_call_budget stUnbounded = .ok () ∧
    ensure_time_budget stUnbounded 5 = .ok () ∧
    (runToolCalls envAllOk [("a", 0), ("b", 0), ("c", 0)] stUnbounded).2 = 3 :=
  ⟨claim_c9_falsy_budgets.1 stUnbounded rfl,
    claim_c9_falsy_budgets.2.1 stUnbounded 5 (by norm_num [stUnbounded]),
    by
      have := claim_c9_falsy_budgets.2.2.2.2 [("a", 0), ("b", 0), ("c", 0)]
        stUnbounded rfl (by norm_num [stUnbounded])
      simpa using this⟩

theorem pyRStrip_length_le (s : List Char) : (pyRStrip s).length ≤ s.length := by
  have h := (List.dropWhile_sublist (l := s.reverse) Char.isWhitespace).length_le
  simpa [pyRStrip] using h

theorem pySliceTo_length_le (s : List Char) (k : Int) (hk : 0 ≤ k) :
    (pySliceTo s k).length ≤ k.toNat := by
  simp only [pySliceTo, if_pos hk, List.length_take]
  omega

/-- C6 (amended): `_stringify_result` first strips surrounding whitespace;
when the configured cap is at least the 16 characters the truncation slice
reserves (the options UI enforces 256 ≤ cap ≤ 16384), a stripped text at or
under the cap is returned exactly as the stripped text, and a stripped text
over the cap is shortened to at most `cap` characters ending in the visible
`"... (truncated)"` marker. -/
theorem claim_c6_truncation_amended (cap : Nat) (result : List Char)
    (hcap : 16 ≤ cap) :
    ((pyStrip result).length ≤ cap →
      stringify_result cap result = pyStrip result) ∧
    (cap < (pyStrip result).length →
      (stringify_result cap result).length ≤ cap ∧
      truncationMarker <:+ stringify_result cap result) := by
  constructor
  · intro hle
    have hneg : ¬ (cap ≠ 0 ∧ cap < (pyStrip result).length) :=
      fun h => absurd h.2 (not_lt.mpr hle)
    simp only [stringify_result, if_neg hneg]
  · intro hgt
    have hpos : cap ≠ 0 ∧ cap < (pyStrip result).length := ⟨by omega, hgt⟩
    simp only [stringify_result, if_pos hpos]
    constructor
    · have h1 : (pyRStrip (pySliceTo (pyStrip result) ((cap : Int) - 16))).length
          ≤ ((cap : Int) - 16).toNat :=
        le_trans (pyRStrip_length_le _)
          (pySliceTo_length_le _ _ (by omega))
      have h2 : truncationMarker.length = 15 := by decide
      rw [List.length_append, h2]
      omega
    · exact List.suffix_append _ _

/-- C6 counterexample: with the default cap 4000, the two-character result
`" a"` is at or under the cap yet is not returned unmodified — the source
strips the leading whitespace. -/
theorem claim_c6_truncation_counterexample :
    (" a".data.length ≤ 4000) ∧
      stringify_result 4000 " a".data ≠ " a".data := by
  decide

/-- C6 witness: the amended theorem applied at cap 4000 with the stripped
result `"a"`, and at cap 16 with a 20-character result. -/
theorem claim_c6_truncation_witness :
    (stringify_result 4000 "a".data = pyStrip "a".data) ∧
    ((stringify_result 16 "aaaaaaaaaaaaaaaaaaaa".data).length ≤ 16 ∧
      truncationMarker <:+ stringify_result 16 "aaaaaaaaaaaaaaaaaaaa".data) :=
  ⟨(claim_c6_truncation_amended 4000 "a".data (by decide)).1 (by decide),
    (claim_c6_truncation_amended 16 "aaaaaaaaaaaaaaaaaaaa".data
      (by decide)).2 (by decide)⟩

theorem lookupArg_eq_none_of_hasKey_eq_false {args : List (String × ArgVal)}
    {key : String} (h : hasKey args key = false) : lookupArg args key = none := by
  unfold hasKey at h
  unfold lookupArg
  cases hf : List.find? (fun kv => decide (kv.1 = key)) args with
  | none => rfl
  | some kv => rw [hf] at h; simp at h

/-- C8: a script tool invocation carrying neither an inline `sequence` nor an
`entity_id`, or carrying both, is rejected by
`ScriptFunctionExecutor.to_arguments` with `InvalidFunction("script")` before
execution: without a `sequence` key a missing (or non-string) `entity_id`
falls through to the explicit raise, and with a `sequence` key an `entity_id`
key is an extra key the extended `SCRIPT_ENTITY_SCHEMA` rejects. -/
theorem claim_c8_script_exactly_one (args : List (String × ArgVal)) :
    (hasKey args "sequence" = false → hasKey args "entity_id" = false →
      script_to_arguments args = .error "script") ∧
    (hasKey args "sequence" = true → hasKey args "entity_id" = true →
      script_to_arguments args = .error "script") := by
  constructor
  · intro hseq hent
    simp [script_to_arguments, hseq,
      lookupArg_eq_none_of_hasKey_eq_false hent]
  · intro hseq hent
    have hbad : scriptSchemaOk args = false := by
      simp only [hasKey, Option.isSome_iff_exists] at hent
      obtain ⟨kv0, hfind⟩ := hent
      have hmem := List.mem_of_find?_eq_some hfind
      have hkey := List.find?_some hfind
      simp only [decide_eq_true_eq] at hkey
      simp only [scriptSchemaOk, decide_eq_false_iff_not]
      intro hall
      have := hall.2.2
      rw [List.all_eq_true] at this
      have hin := this kv0 hmem
      rw [hkey] at hin
      simp [scriptSchemaKeys] at hin
    simp [script_to_arguments, hseq, hbad]

/-- C8 witness: the theorem applied to an invocation with neither key and to
an invocation with both keys. -/
theorem claim_c8_script_exactly_one_witness :
    script_to_arguments [("type", ArgVal.other)] = .error "script" ∧
    script_to_arguments
      [("type", ArgVal.other), ("sequence", ArgVal.other),
        ("entity_id", ArgVal.str "script.morning")] = .error "script" :=
  ⟨(claim_c8_script_exactly_one [("type", ArgVal.other)]).1
      (by decide) (by decide),
    (claim_c8_script_exactly_one
      [("type", ArgVal.other), ("sequence", ArgVal.other),
        ("entity_id", ArgVal.str "script.morning")]).2
      (by decide) (by decide)⟩

theorem execute_tool_call_blocked (env : ToolEnv) (st : OrchState) (now : ℚ)
    (name : String) (h0 : st.maxCalls ≠ 0) (hge : st.maxCalls ≤ st.callCount) :
    execute_tool_call env st now name =
      ⟨.error "Maximum tool calls exceeded", st, false⟩ := by
  unfold execute_tool_call ensure_call_budget
  rw [if_pos ⟨h0, hge⟩]

theorem execute_tool_call_state (env : ToolEnv) (st : OrchState) (now : ℚ)
    (name : String) :
    (execute_tool_call env st now name).st.maxCalls = st.maxCalls ∧
    ((execute_tool_call env st now name).st.callCount = st.callCount ∨
      (execute_tool_call env st now name).st.callCount = st.callCount + 1) ∧
    ((execute_tool_call env st now name).invoked = true →
      (execute_tool_call env st now name).st.callCount = st.callCount + 1) := by
  unfold execute_tool_call
  cases hc : ensure_call_budget st with
  | error e => simp
  | ok u =>
    cases u
    cases ht : ensure_time_budget st now with
    | error e => simp
    | ok u2 =>
      cases u2
      by_cases hk : env.runtimeKnown name
      · simp only [hk, Bool.not_true, Bool.false_eq_true, if_false]
        cases hp : env.prepare name with
        | error e => simp
        | ok u3 =>
          cases u3
          cases hi : env.invoke name <;> simp
      · simp [hk]

theorem runToolCalls_bounded (env : ToolEnv) (K : Nat) (hK : K ≠ 0) :
    ∀ (calls : List (String × ℚ)) (st : OrchState), st.maxCalls = K →
      st.callCount ≤ K →
      (runToolCalls env calls st).1.callCount ≤ K ∧
      (runToolCalls env calls st).2 + st.callCount ≤ K := by
  intro calls
  induction calls with
  | nil => intro st hmax hle; simpa [runToolCalls] using hle
  | cons c rest ih =>
    intro st hmax hle
    obtain ⟨nm, tnow⟩ := c
    by_cases hblock : K ≤ st.callCount
    · have hb := execute_tool_call_blocked env st tnow nm
        (hmax ▸ hK) (hmax ▸ hblock)
      have hrest := ih st hmax hle
      simp only [runToolCalls, hb]
      cases hrr : runToolCalls env rest st with
      | mk stF n =>
        rw [hrr] at hrest
        simpa using hrest
    · have hlt : st.callCount < K := lt_of_not_le hblock
      have hsp := execute_tool_call_state env st tnow nm
      have hmax2 : (execute_tool_call env st tnow nm).st.maxCalls = K := by
        rw [hsp.1, hmax]
      have hle2 : (execute_tool_call env st tnow nm).st.callCount ≤ K := by
        rcases hsp.2.1 with h | h <;> omega
      have hcc : st.callCount ≤ (execute_tool_call env st tnow nm).st.callCount := by
        rcases hsp.2.1 with h | h <;> omega
      have hrest := ih (execute_tool_call env st tnow nm).st hmax2 hle2
      cases hrr : runToolCalls env rest (execute_tool_call env st tnow nm).st with
      | mk stF n =>
        rw [hrr] at hrest
        simp only at hrest
        simp only [runToolCalls, hrr]
        constructor
        · exact hrest.1
        · by_cases hinv : (execute_tool_call env st tnow nm).invoked
          · have hcnt := hsp.2.2 hinv
            simp only [hinv, if_pos]
            omega
          · simp only [hinv, Bool.false_eq_true, if_false]
            omega

/-- C3: with `max_tool_calls = K > 0`, a turn started from a reset call
counter performs at most `K` executor invocations and the invariant
`call_count ≤ max_tool_calls` holds at the end of every run; moreover, any
call requested while the counter has reached `K` (the `(K+1)`-th requested
call) is answered with the halting `"Maximum tool calls exceeded"` error
raised before the executor is invoked, leaving the state untouched — no
executed side effect. -/
theorem claim_c3_call_budget (env : ToolEnv) (calls : List (String × ℚ))
    (st : OrchState) (K : Nat) (hmax : st.maxCalls = K) (hK : K ≠ 0)
    (hzero : st.callCount = 0) :
    ((runToolCalls env calls st).1.callCount ≤ K ∧
      (runToolCalls env calls st).2 ≤ K) ∧
    (∀ (st2 : OrchState) (now : ℚ) (nm : String), st2.maxCalls = K →
      K ≤ st2.callCount →
      (execute_tool_call env st2 now nm).out =
          .error "Maximum tool calls exceeded" ∧
        (execute_tool_call env st2 now nm).invoked = false ∧
        (execute_tool_call env st2 now nm).st = st2) := by
  constructor
  · have h := runToolCalls_bounded env K hK calls st hmax (by omega)
    exact ⟨h.1, by omega⟩
  · intro st2 now nm hmax2 hge
    rw [execute_tool_call_blocked env st2 now nm (hmax2 ▸ hK) (hmax2 ▸ hge)]
    exact ⟨rfl, rfl, rfl⟩

/-- C3 witness: three requested calls under `max_tool_calls = 2` stay within
budget, and a call requested at a counter of 2 is refused untouched. -/
theorem claim_c3_call_budget_witness :
    ((runToolCalls envAllOk [("a", 0), ("b", 0), ("c", 0)] stBudget2).1.callCount
        ≤ 2 ∧
      (runToolCalls envAllOk [("a", 0), ("b", 0), ("c", 0)] stBudget2).2 ≤ 2) ∧
    ((execute_tool_call envAllOk ⟨2, 3, 12, 4000, 2, 0⟩ 0 "d").out =
        .error "Maximum tool calls exceeded" ∧
      (execute_tool_call envAllOk ⟨2, 3, 12, 4000, 2, 0⟩ 0 "d").invoked = false ∧
      (execute_tool_call envAllOk ⟨2, 3, 12, 4000, 2, 0⟩ 0 "d").st =
        ⟨2, 3, 12, 4000, 2, 0⟩) :=
  ⟨(claim_c3_call_budget envAllOk [("a", 0), ("b", 0), ("c", 0)] stBudget2 2
      rfl (by decide) rfl).1,
    (claim_c3_call_budget envAllOk [("a", 0), ("b", 0), ("c", 0)] stBudget2 2
      rfl (by decide) rfl).2 ⟨2, 3, 12, 4000, 2, 0⟩ 0 "d" rfl (by decide)⟩

theorem chatLoop_trips_ge (replies : Nat → ChatReply)
    (ex : Nat → Nat → ChatToolCall → Except String String) (maxChain : Nat) :
    ∀ (k depth trips : Nat) (msgs : List ChatMsg) (execs : List (Nat × Nat)),
      maxChain - depth = k →
      trips + 1 ≤ (chatLoop replies ex maxChain depth trips msgs execs).trips := by
  intro k
  induction k using Nat.strong_induction_on with
  | _ k ih =>
    intro depth trips msgs execs hk
    rw [chatLoop]
    by_cases h1 : (replies trips).toolCalls = []
    · simp [h1]
    · by_cases h2 : depth ≥ maxChain
      · simp [h1, h2]
      · rw [if_neg h1, if_neg h2]
        cases hpc : chatProcessCalls ex depth 0 (replies trips).toolCalls with
        | mk toolMsgs roundExecs =>
          have hlt : maxChain - (depth + 1) < k := by omega
          have := ih (maxChain - (depth + 1)) hlt (depth + 1) (trips + 1)
            (msgs ++ ChatMsg.assistant (replies trips).content
              (replies trips).toolCalls :: toolMsgs)
            (execs ++ roundExecs) rfl
          simp only [hpc]
          omega

/-- C5: a tool call whose execution raises a typed `ToolExecutionError` is
caught per call: the chat flow converts it to the text
`"Tool <name> failed: <message>"`, appends that text to the exchange as the
tool's `role:"tool"` result, and keeps processing — below the depth limit the
loop always proceeds to at least one further model round-trip rather than
aborting the turn; and inside the orchestrator a per-call timeout surfaces as
the typed error `"Tool <name> timed out"`. -/
theorem claim_c5_failure_fed_back
    (ex : Nat → Nat → ChatToolCall → Except String String)
    (replies : Nat → ChatReply) (maxChain depth i trips : Nat)
    (call : ChatToolCall) (rest : List ChatToolCall)
    (msgs : List ChatMsg) (execs : List (Nat × Nat))
    (env : ToolEnv) (st : OrchState) (now : ℚ) (nm e : String)
    (hname : call.name = some nm) (hne : nm ≠ "")
    (hex : ex depth i call = .error e)
    (hdep : depth < maxChain) (hcalls : (replies trips).toolCalls ≠ [])
    (hknown : env.runtimeKnown nm = true) (hprep : env.prepare nm = .ok ())
    (hinv : env.invoke nm = .timedOut)
    (hbudget : ensure_call_budget st = .ok ())
    (htime : ensure_time_budget st now = .ok ()) :
    (chatProcessCalls ex depth i (call :: rest)).1 =
      ChatMsg.tool call.id ("Tool " ++ nm ++ " failed: " ++ e) ::
        (chatProcessCalls ex depth (i + 1) rest).1 ∧
    trips + 2 ≤ (chatLoop replies ex maxChain depth trips msgs execs).trips ∧
    (execute_tool_call env st now nm).out =
      .error ("Tool " ++ nm ++ " timed out") := by
  refine ⟨?_, ?_, ?_⟩
  · simp only [chatProcessCalls, hname, optTruthy, hne, decide_not,
      Option.getD_some, hex]
    cases hrec : chatProcessCalls ex depth (i + 1) rest with
    | mk m2 e2 => simp [hne]
  · rw [chatLoop, if_neg hcalls, if_neg (not_le.mpr hdep)]
    cases hpc : chatProcessCalls ex depth 0 (replies trips).toolCalls with
    | mk toolMsgs roundExecs =>
      have := chatLoop_trips_ge replies ex maxChain (maxChain - (depth + 1))
        (depth + 1) (trips + 1)
        (msgs ++ ChatMsg.assistant (replies trips).content
          (replies trips).toolCalls :: toolMsgs)
        (execs ++ roundExecs) rfl
      simp only [hpc]
      omega
  · unfold execute_tool_call
    rw [hbudget, htime]
    simp [hknown, hprep, hinv]

/-- C5 witness: the theorem applied to a failing executor on round 0, with a
model that always requests a call and an orchestrator whose executor times
out. -/
theorem claim_c5_failure_fed_back_witness :
    (chatProcessCalls chatExecFails 0 0
        [⟨some "0", some "memory_query", "\x7b\x7d"⟩]).1 =
      ChatMsg.tool (some "0") "Tool memory_query failed: boom" ::
        (chatProcessCalls chatExecFails 0 1 []).1 ∧
    0 + 2 ≤ (chatLoop chatAlwaysCalls chatExecFails 3 0 0 [] []).trips ∧
    (execute_tool_call envTimesOut stBudget2 0 "memory_query").out =
      .error ("Tool " ++ "memory_query" ++ " timed out") :=
  claim_c5_failure_fed_back chatExecFails chatAlwaysCalls 3 0 0 0
    ⟨some "0", some "memory_query", "\x7b\x7d"⟩ [] [] []
    envTimesOut stBudget2 0 "memory_query" "boom"
    rfl (by decide) rfl (by decide) (by decide) rfl rfl rfl rfl
    (by norm_num [ensure_time_budget, stBudget2])

theorem insertSorted_ne_nil (a : String) (l : List String) :
    insertSorted a l ≠ [] := by
  cases l with
  | nil => simp [insertSorted]
  | cons b bs => simp only [insertSorted]; split <;> simp

theorem sortStrings_ne_nil {l : List String} (h : l ≠ []) :
    sortStrings l ≠ [] := by
  cases l with
  | nil => exact absurd rfl h
  | cons x xs =>
    simpa [sortStrings] using insertSorted_ne_nil x (xs.foldr insertSorted [])

theorem dedup_foldl_ne_nil :
    ∀ (l acc : List String), acc ≠ [] →
      List.foldl (fun acc x => if x ∈ acc then acc else acc ++ [x]) acc l ≠ []
  | [], acc, h => by simpa using h
  | x :: xs, acc, h => by
    simp only [List.foldl_cons]
    apply dedup_foldl_ne_nil
    split
    · exact h
    · simp

theorem dedupStrings_ne_nil {l : List String} (h : l ≠ []) :
    dedupStrings l ≠ [] := by
  cases l with
  | nil => exact absurd rfl h
  | cons x xs =>
    unfold dedupStrings
    simp only [List.foldl_cons]
    apply dedup_foldl_ne_nil
    simp

theorem sortedSet_ne_nil {l : List String} (h : l ≠ []) : sortedSet l ≠ [] :=
  sortStrings_ne_nil (dedupStrings_ne_nil h)

theorem entityList_spec (args : ServiceArgs) (h : args.entityList ≠ []) :
    ∃ l, args.entityIdNorm = .list l ∧ l ≠ [] ∧ args.entityList = l := by
  cases hn : args.entityIdNorm with
  | null => rw [ServiceArgs.entityList, hn] at h; simp at h
  | str s => rw [ServiceArgs.entityList, hn] at h; simp at h
  | list l =>
    refine ⟨l, rfl, ?_, ?_⟩
    · rw [ServiceArgs.entityList, hn] at h; simpa using h
    · rw [ServiceArgs.entityList, hn]

theorem validate_entity_ids_errors (env : HassEnv) (es exposed : List String)
    (hmiss : ∃ e ∈ es, ¬ e ∈ exposed) :
    (∃ err, validate_entity_ids env es exposed = .error err) ∧
    (es.any (fun e => ¬ e ∈ env.statesLoaded) = false →
      validate_entity_ids env es exposed =
        .error (.entityNotExposed
          (sortedSet (es.filter (fun e => ¬ e ∈ exposed))))) := by
  have hfil : es.filter (fun e => ¬ e ∈ exposed) ≠ [] := by
    intro hnil
    rw [List.filter_eq_nil_iff] at hnil
    obtain ⟨e, he, hne⟩ := hmiss
    exact absurd (by simpa using hne) (by simpa using hnil e he)
  have hss := sortedSet_ne_nil hfil
  by_cases hany : es.any (fun e => ¬ e ∈ env.statesLoaded) = true
  · refine ⟨⟨.entityNotFound es, ?_⟩, fun hfalse => ?_⟩
    · simp only [validate_entity_ids, if_pos hany]
    · rw [hfalse] at hany; exact absurd hany (by simp)
  · have hval : validate_entity_ids env es exposed =
        .error (.entityNotExposed
          (sortedSet (es.filter (fun e => ¬ e ∈ exposed)))) := by
      simp only [validate_entity_ids, if_neg hany, if_pos hss]
    exact ⟨⟨_, hval⟩, fun _ => hval⟩

/-- C4 (amended): a native service call whose explicit entity targets include
an entity outside the turn's exposed set never dispatches a service call —
zero side effects — and is answered with a raised typed error; when the
service exists and every target is loaded, that error is precisely
`EntityNotExposed` naming the sorted offending entities (a target that is
not even loaded raises `EntityNotFound` first); and on the area/device
resolution path, any hidden resolved target yields the structured
`{"error": ...}` payload naming the hidden entities, again with no
dispatch. -/
theorem claim_c4_exposure_amended :
    (∀ (env : HassEnv) (args : ServiceArgs) (exposed : List String),
      args.entityList ≠ [] → (∃ e ∈ args.entityList, ¬ e ∈ exposed) →
      (execute_service_single env args exposed).2 = [] ∧
      ∃ err, (execute_service_single env args exposed).1 = .raised err) ∧
    (∀ (env : HassEnv) (args : ServiceArgs) (exposed : List String),
      args.entityList ≠ [] → (∃ e ∈ args.entityList, ¬ e ∈ exposed) →
      env.hasService args.domain args.service = true →
      (∀ e ∈ args.entityList, e ∈ env.statesLoaded) →
      (execute_service_single env args exposed).1 =
        .raised (.entityNotExposed
          (sortedSet (args.entityList.filter (fun e => ¬ e ∈ exposed)))) ∧
      (execute_service_single env args exposed).2 = []) ∧
    (∀ (env : HassEnv) (args : ServiceArgs) (exposed : List String),
      args.entityIdNorm.truthy = false →
      (args.areaId.truthy = true ∨ args.deviceId.truthy = true) →
      env.hasService args.domain args.service = true →
      (resolveTargets env args.areaId.asIdList args.deviceId.asIdList).filter
        (fun e => ¬ env.shouldExpose e) ≠ [] →
      (execute_service_single env args exposed).1 =
        .errorPayload ("Some targets are hidden from Assist: " ++
          String.intercalate ", "
            ((resolveTargets env args.areaId.asIdList
              args.deviceId.asIdList).filter
              (fun e => ¬ env.shouldExpose e))) ∧
      (execute_service_single env args exposed).2 = []) := by
  refine ⟨?_, ?_, ?_⟩
  · intro env args exposed hne hmiss
    obtain ⟨l, hnorm, hl, hlist⟩ := entityList_spec args hne
    have hc1 : ¬ (args.entityIdNorm = .null ∧ args.areaId = .null ∧
        args.deviceId = .null) := by
      rw [hnorm]; rintro ⟨hx, -, -⟩; exact TargetVal.noConfusion hx
    by_cases hsvc : env.hasService args.domain args.service = true
    · obtain ⟨err, herr⟩ := (validate_entity_ids_errors env args.entityList
        exposed hmiss).1
      unfold execute_service_single
      rw [if_neg hc1, if_neg (not_not_intro hsvc), herr]
      exact ⟨rfl, ⟨err, rfl⟩⟩
    · unfold execute_service_single
      rw [if_neg hc1, if_pos hsvc]
      exact ⟨rfl, ⟨_, rfl⟩⟩
  · intro env args exposed hne hmiss hsvc hloaded
    obtain ⟨l, hnorm, hl, hlist⟩ := entityList_spec args hne
    have hc1 : ¬ (args.entityIdNorm = .null ∧ args.areaId = .null ∧
        args.deviceId = .null) := by
      rw [hnorm]; rintro ⟨hx, -, -⟩; exact TargetVal.noConfusion hx
    have hany : args.entityList.any
        (fun e => ¬ e ∈ env.statesLoaded) = false := by
      rw [List.any_eq_false]
      intro e he
      simpa using hloaded e he
    have hval := (validate_entity_ids_errors env args.entityList exposed
      hmiss).2 hany
    unfold execute_service_single
    rw [if_neg hc1, if_neg (not_not_intro hsvc), hval]
    exact ⟨rfl, rfl⟩
  · intro env args exposed hfalsy harea hsvc hhid
    have hlist : args.entityList = [] := by
      rw [ServiceArgs.entityList]
      cases hn : args.entityIdNorm with
      | null => rfl
      | str s => rfl
      | list l =>
        rw [hn] at hfalsy
        simp only [TargetVal.truthy, decide_eq_false_iff_not,
          not_not] at hfalsy
        simp [hfalsy]
    have hc1 : ¬ (args.entityIdNorm = .null ∧ args.areaId = .null ∧
        args.deviceId = .null) := by
      rintro ⟨-, hxa, hxd⟩
      rcases harea with h | h
      · rw [hxa] at h; exact absurd h (by simp [TargetVal.truthy])
      · rw [hxd] at h; exact absurd h (by simp [TargetVal.truthy])
    have hval : validate_entity_ids env args.entityList exposed = .ok () := by
      rw [hlist]; rfl
    have hnottruthy : ¬ args.entityIdNorm.truthy = true := by
      rw [hfalsy]; exact Bool.false_ne_true
    unfold execute_service_single
    rw [if_neg hc1, if_neg (not_not_intro hsvc), hval]
    rw [if_neg hnottruthy, if_pos harea, if_pos hhid]
    exact ⟨rfl, rfl⟩

/-- C4 counterexample: a call targeting `light.ghost`, which is both absent
from the exposed set and not loaded, fails with `EntityNotFound` — not with
the `EntityNotExposed` authorization error and not with a structured error
payload — though still before any dispatch. -/
theorem claim_c4_exposure_counterexample :
    ¬ ("light.ghost" ∈ ([] : List String)) ∧
    execute_service_single hassEnvEmpty argsGhost [] =
      (.raised (.entityNotFound ["light.ghost"]), []) := by
  exact ⟨by simp, by decide⟩

/-- C4 witness: the amended theorem applied to the hidden-entity scenario of
spec §8 (`lock.front_door` loaded but unexposed) and to an area-resolution
call whose resolved target is hidden from Assist. -/
theorem claim_c4_exposure_witness :
    ((execute_service_single hassEnvFrontDoor argsFrontDoor []).1 =
        .raised (.entityNotExposed
          (sortedSet (argsFrontDoor.entityList.filter
            (fun e => ¬ e ∈ ([] : List String))))) ∧
      (execute_service_single hassEnvFrontDoor argsFrontDoor []).2 = []) ∧
    ((execute_service_single hassEnvArea argsArea []).1 =
        .errorPayload ("Some targets are hidden from Assist: " ++
          String.intercalate ", "
            ((resolveTargets hassEnvArea argsArea.areaId.asIdList
              argsArea.deviceId.asIdList).filter
              (fun e => ¬ hassEnvArea.shouldExpose e))) ∧
      (execute_service_single hassEnvArea argsArea []).2 = []) :=
  ⟨(claim_c4_exposure_amended.2.1 hassEnvFrontDoor argsFrontDoor []
      (by decide) (by decide) rfl (by decide)),
    (claim_c4_exposure_amended.2.2 hassEnvArea argsArea []
      (by decide) (Or.inl (by decide)) rfl (by decide))⟩

theorem append_right_ne_empty (s t : String) (h : t ≠ "") : s ++ t ≠ "" := by
  intro heq
  have hd : s.data ++ t.data = ([] : List Char) := by
    have h2 := congrArg String.data heq
    rwa [String.data_append] at h2
  have ht : t.data = [] := (List.append_eq_nil.mp hd).2
  exact h (String.ext (by simpa using ht))

theorem chatLoop_trips_le (replies : Nat → ChatReply)
    (ex : Nat → Nat → ChatToolCall → Except String String) (maxChain : Nat) :
    ∀ (k depth trips : Nat) (msgs : List ChatMsg) (execs : List (Nat × Nat)),
      maxChain - depth = k →
      (chatLoop replies ex maxChain depth trips msgs execs).trips ≤
        trips + (maxChain - depth) + 1 := by
  intro k
  induction k using Nat.strong_induction_on with
  | _ k ih =>
    intro depth trips msgs execs hk
    rw [chatLoop]
    by_cases h1 : (replies trips).toolCalls = []
    · simp [h1]
    · rw [if_neg h1]
      by_cases h2 : depth ≥ maxChain
      · rw [if_pos h2]; simp
      · rw [if_neg h2]
        cases hpc : chatProcessCalls ex depth 0 (replies trips).toolCalls with
        | mk toolMsgs roundExecs =>
          have hlt : maxChain - (depth + 1) < k := by omega
          have := ih (maxChain - (depth + 1)) hlt (depth + 1) (trips + 1)
            (msgs ++ ChatMsg.assistant (replies trips).content
              (replies trips).toolCalls :: toolMsgs)
            (execs ++ roundExecs) rfl
          simp only [hpc]
          omega

theorem respLoop_trips_le (replies : Nat → RespReply)
    (ex : Nat → Nat → RespCall → Except String String) (maxChain : Nat) :
    ∀ (k : Nat) (r : RespReply) (depth trips : Nat)
      (submitted : List (List FuncOutput)) (execs : List (Nat × Nat)),
      maxChain - depth = k →
      (respLoop replies ex maxChain r depth trips submitted execs).trips ≤
        trips + (maxChain - depth) + 1 := by
  intro k
  induction k using Nat.strong_induction_on with
  | _ k ih =>
    intro r depth trips submitted execs hk
    rw [respLoop]
    by_cases h1 : r.calls = []
    · rw [if_pos h1]
      show trips ≤ trips + (maxChain - depth) + 1
      omega
    · rw [if_neg h1]
      by_cases h2 : depth ≥ maxChain
      · rw [if_pos h2]; simp
      · rw [if_neg h2]
        cases hpc : respProcessCalls ex depth 0 r.calls with
        | mk outs roundExecs =>
          simp only [hpc]
          by_cases ho : outs = []
          · rw [if_pos ho]
            show trips ≤ trips + (maxChain - depth) + 1
            omega
          · rw [if_neg ho]
            have hlt : maxChain - (depth + 1) < k := by omega
            have := ih (maxChain - (depth + 1)) hlt (replies trips)
              (depth + 1) (trips + 1) (submitted ++ [outs])
              (execs ++ roundExecs) rfl
            omega

theorem chatLoop_text_ne_empty (replies : Nat → ChatReply)
    (ex : Nat → Nat → ChatToolCall → Except String String) (maxChain : Nat)
    (h : ∀ t, (replies t).toolCalls ≠ []) :
    ∀ (k depth trips : Nat) (msgs : List ChatMsg) (execs : List (Nat × Nat)),
      maxChain - depth = k →
      (chatLoop replies ex maxChain depth trips msgs execs).text ≠ "" := by
  intro k
  induction k using Nat.strong_induction_on with
  | _ k ih =>
    intro depth trips msgs execs hk
    rw [chatLoop, if_neg (h trips)]
    by_cases h2 : depth ≥ maxChain
    · rw [if_pos h2]
      by_cases hc : (replies trips).content = ""
      · simp only [hc, if_pos]
        decide
      · simp only [hc, if_neg]
        exact append_right_ne_empty _ _ (by decide)
    · rw [if_neg h2]
      cases hpc : chatProcessCalls ex depth 0 (replies trips).toolCalls with
      | mk toolMsgs roundExecs =>
        have hlt : maxChain - (depth + 1) < k := by omega
        have := ih (maxChain - (depth + 1)) hlt (depth + 1) (trips + 1)
          (msgs ++ ChatMsg.assistant (replies trips).content
            (replies trips).toolCalls :: toolMsgs)
          (execs ++ roundExecs) rfl
        simpa [hpc] using this

theorem response_text_ne_empty (r : RespReply) :
    response_text_from_responses_result r ≠ "" := by
  unfold response_text_from_responses_result
  by_cases h : r.text = ""
  · rw [if_pos h]; decide
  · rw [if_neg h]; exact h

/-- C1 (amended): for max_tool_chain = N and any sequence of model replies
that keep requesting tool calls, the legacy Chat Completions flow performs at
most `N + 1` model round-trips and returns non-empty text; the stateful
Responses flow performs at most `N + 2` round-trips — its depth-limit branch
spends one extra round-trip on the synthetic halt outputs after the `N + 1`
round-trips the chat flow would make — and its final text, passed through the
text extractor with its apology placeholder, is likewise non-empty. -/
theorem claim_c1_termination_amended (N : Nat) (sysPrompt userText : String)
    (replies : Nat → ChatReply)
    (ex : Nat → Nat → ChatToolCall → Except String String)
    (replies2 : Nat → RespReply)
    (ex2 : Nat → Nat → RespCall → Except String String)
    (h1 : ∀ t, (replies t).toolCalls ≠ [])
    (_h2 : ∀ t, (replies2 t).calls ≠ []) :
    (run_chat_flow sysPrompt userText replies ex N).trips ≤ N + 1 ∧
    (run_chat_flow sysPrompt userText replies ex N).text ≠ "" ∧
    (run_responses_flow replies2 ex2 N).trips ≤ N + 2 ∧
    response_text_from_responses_result
      (run_responses_flow replies2 ex2 N).final ≠ "" := by
  refine ⟨?_, ?_, ?_, ?_⟩
  · have := chatLoop_trips_le replies ex N N 0 0
      ((if sysPrompt = "" then [] else [ChatMsg.system sysPrompt]) ++
        [ChatMsg.user userText]) [] rfl
    simpa [run_chat_flow] using this
  · have := chatLoop_text_ne_empty replies ex N h1 N 0 0
      ((if sysPrompt = "" then [] else [ChatMsg.system sysPrompt]) ++
        [ChatMsg.user userText]) [] rfl
    simpa [run_chat_flow] using this
  · have h := respLoop_trips_le replies2 ex2 N N (replies2 0) 0 1 [] [] rfl
    rw [run_responses_flow]
    omega
  · exact response_text_ne_empty _

/-- C1 counterexample: with `max_tool_chain = 1` and a model that keeps
requesting tool calls, the Responses flow performs 3 model round-trips —
more than the `N + 1 = 2` the claim allows for both flows. -/
theorem claim_c1_termination_counterexample :
    (run_responses_flow respAlwaysCalls respExecOk 1).trips = 3 ∧
    ¬ ((run_responses_flow respAlwaysCalls respExecOk 1).trips ≤ 1 + 1) := by
  have h : (run_responses_flow respAlwaysCalls respExecOk 1).trips = 3 := by
    rw [run_responses_flow, respLoop]
    simp only [respAlwaysCalls, respProcessCalls, optTruthy, pyOrOpt, pyOrD,
      respExecOk]
    norm_num
    rw [respLoop]
    simp [respAlwaysCalls]
  exact ⟨h, by rw [h]; decide⟩

/-- C1 witness: the amended theorem applied to always-requesting reply
streams with `max_tool_chain = 1`. -/
theorem claim_c1_termination_witness :
    (run_chat_flow "" "hi" chatAlwaysCalls chatExecOk 1).trips ≤ 1 + 1 ∧
    (run_chat_flow "" "hi" chatAlwaysCalls chatExecOk 1).text ≠ "" ∧
    (run_responses_flow respAlwaysCalls respExecOk 1).trips ≤ 1 + 2 ∧
    response_text_from_responses_result
      (run_responses_flow respAlwaysCalls respExecOk 1).final ≠ "" :=
  claim_c1_termination_amended 1 "" "hi" chatAlwaysCalls chatExecOk
    respAlwaysCalls respExecOk
    (fun t => by simp [chatAlwaysCalls])
    (fun t => by simp [respAlwaysCalls])

theorem respProcessCalls_ne_nil
    (ex : Nat → Nat → RespCall → Except String String) (depth : Nat) :
    ∀ (i : Nat) (calls : List RespCall),
      (∃ c ∈ calls, optTruthy c.name = true) →
      (respProcessCalls ex depth i calls).1 ≠ [] := by
  intro i calls
  induction calls generalizing i with
  | nil => rintro ⟨c, hc, -⟩; exact absurd hc (List.not_mem_nil c)
  | cons c cs ih =>
    rintro ⟨c0, hc0, hname⟩
    by_cases ht : optTruthy c.name = true
    · simp only [respProcessCalls, ht, if_pos]
      cases hrec : respProcessCalls ex depth (i + 1) cs with
      | mk outs execs => simp
    · have hc0cs : c0 ∈ cs := by
        rcases List.mem_cons.mp hc0 with h | h
        · rw [h] at hname; exact absurd hname ht
        · exact h
      simp only [respProcessCalls, ht, if_neg, Bool.false_eq_true, if_false]
      exact ih (i + 1) ⟨c0, hc0cs, hname⟩

theorem respProcessCalls_execs_depth
    (ex : Nat → Nat → RespCall → Except String String) (depth : Nat) :
    ∀ (i : Nat) (calls : List RespCall) (p : Nat × Nat),
      p ∈ (respProcessCalls ex depth i calls).2 → p.1 = depth := by
  intro i calls
  induction calls generalizing i with
  | nil => intro p hp; exact absurd hp (List.not_mem_nil p)
  | cons c cs ih =>
    intro p hp
    by_cases ht : optTruthy c.name = true
    · simp only [respProcessCalls, ht, if_pos] at hp
      cases hrec : respProcessCalls ex depth (i + 1) cs with
      | mk outs execs =>
        rw [hrec] at hp
        simp only [List.mem_cons] at hp
        rcases hp with h | h
        · rw [h]
        · exact ih (i + 1) p (by rw [hrec]; exact h)
    · simp only [respProcessCalls, ht, Bool.false_eq_true, if_false] at hp
      exact ih (i + 1) p hp

theorem chatProcessCalls_execs_depth
    (ex : Nat → Nat → ChatToolCall → Except String String) (depth : Nat) :
    ∀ (i : Nat) (calls : List ChatToolCall) (p : Nat × Nat),
      p ∈ (chatProcessCalls ex depth i calls).2 → p.1 = depth := by
  intro i calls
  induction calls generalizing i with
  | nil => intro p hp; exact absurd hp (List.not_mem_nil p)
  | cons c cs ih =>
    intro p hp
    by_cases ht : optTruthy c.name = true
    · simp only [chatProcessCalls, ht, if_pos] at hp
      cases hrec : chatProcessCalls ex depth (i + 1) cs with
      | mk msgs execs =>
        rw [hrec] at hp
        simp only [List.mem_cons] at hp
        rcases hp with h | h
        · rw [h]
        · exact ih (i + 1) p (by rw [hrec]; exact h)
    · simp only [chatProcessCalls, ht, Bool.false_eq_true, if_false] at hp
      exact ih (i + 1) p hp

theorem respLoop_halts (replies : Nat → RespReply)
    (ex : Nat → Nat → RespCall → Except String String) (N : Nat)
    (hnamed : ∀ t, ∃ c ∈ (replies t).calls, optTruthy c.name = true) :
    ∀ (k depth trips : Nat) (submitted : List (List FuncOutput))
      (execs : List (Nat × Nat)),
      N - depth = k → depth ≤ N → depth + 1 = trips →
      (∀ p ∈ execs, p.1 < N) →
      (respLoop replies ex N (replies depth) depth trips submitted
          execs).halted = true ∧
      (respLoop replies ex N (replies depth) depth trips submitted
          execs).trips = N + 2 ∧
      (respLoop replies ex N (replies depth) depth trips submitted
          execs).submitted.getLast? = some (haltOutputs (replies N).calls) ∧
      (∀ p ∈ (respLoop replies ex N (replies depth) depth trips submitted
          execs).execs, p.1 < N) := by
  intro k
  induction k using Nat.strong_induction_on with
  | _ k ih =>
    intro depth trips submitted execs hk hle htr hex
    subst htr
    have hcalls : (replies depth).calls ≠ [] := by
      obtain ⟨c, hc, -⟩ := hnamed depth
      intro hnil
      rw [hnil] at hc
      exact absurd hc (List.not_mem_nil c)
    rw [respLoop, if_neg hcalls]
    by_cases h2 : depth ≥ N
    · have hdN : depth = N := le_antisymm hle h2
      rw [if_pos h2]
      refine ⟨rfl, ?_, ?_, hex⟩
      · show depth + 1 + 1 = N + 2
        omega
      · show (submitted ++ [haltOutputs (replies depth).calls]).getLast? =
          some (haltOutputs (replies N).calls)
        rw [List.getLast?_concat, hdN]
    · rw [if_neg h2]
      cases hpc : respProcessCalls ex depth 0 (replies depth).calls with
      | mk outs roundExecs =>
        have ho : outs ≠ [] := by
          have := respProcessCalls_ne_nil ex depth 0 (replies depth).calls
            (hnamed depth)
          rw [hpc] at this
          exact this
        simp only [hpc]
        rw [if_neg ho]
        have hex2 : ∀ p ∈ execs ++ roundExecs, p.1 < N := by
          intro p hp
          rcases List.mem_append.mp hp with h | h
          · exact hex p h
          · have := respProcessCalls_execs_depth ex depth 0
              (replies depth).calls p (by rw [hpc]; exact h)
            omega
        exact ih (N - (depth + 1)) (by omega) (depth + 1) (depth + 1 + 1)
          (submitted ++ [outs]) (execs ++ roundExecs) rfl (by omega)
          rfl hex2

theorem chatLoop_halts (replies : Nat → ChatReply)
    (ex : Nat → Nat → ChatToolCall → Except String String) (N : Nat)
    (h : ∀ t, (replies t).toolCalls ≠ []) :
    ∀ (k depth trips : Nat) (msgs : List ChatMsg) (execs : List (Nat × Nat)),
      N - depth = k → depth ≤ N → depth = trips →
      (∀ p ∈ execs, p.1 < N) →
      (chatLoop replies ex N depth trips msgs execs).trips = N + 1 ∧
      (∀ p ∈ (chatLoop replies ex N depth trips msgs execs).execs, p.1 < N) ∧
      chainLimitSuffix.data <:+
        (chatLoop replies ex N depth trips msgs execs).text.data := by
  intro k
  induction k using Nat.strong_induction_on with
  | _ k ih =>
    intro depth trips msgs execs hk hle htr hex
    subst htr
    rw [chatLoop, if_neg (h depth)]
    by_cases h2 : depth ≥ N
    · have hdN : depth = N := le_antisymm hle h2
      rw [if_pos h2]
      refine ⟨?_, hex, ?_⟩
      · show depth + 1 = N + 1
        omega
      · show chainLimitSuffix.data <:+
          (if (replies depth).content = "" then chainLimitSuffix
            else (replies depth).content ++ "\n" ++ chainLimitSuffix).data
        by_cases hc : (replies depth).content = ""
        · rw [if_pos hc]
        · rw [if_neg hc]
          rw [String.data_append]
          exact List.suffix_append _ _
    · rw [if_neg h2]
      cases hpc : chatProcessCalls ex depth 0 (replies depth).toolCalls with
      | mk toolMsgs roundExecs =>
        simp only [hpc]
        have hex2 : ∀ p ∈ execs ++ roundExecs, p.1 < N := by
          intro p hp
          rcases List.mem_append.mp hp with hh | hh
          · exact hex p hh
          · have := chatProcessCalls_execs_depth ex depth 0
              (replies depth).toolCalls p (by rw [hpc]; exact hh)
            omega
        exact ih (N - (depth + 1)) (by omega) (depth + 1) (depth + 1)
          (msgs ++ ChatMsg.assistant (replies depth).content
            (replies depth).toolCalls :: toolMsgs)
          (execs ++ roundExecs) rfl (by omega) rfl hex2

/-- C2 (amended): only the stateful Responses flow implements the
halted-at-maximum-depth protocol: when the chain depth reaches
`max_tool_chain` with pending calls, it synthesizes a
`"Tool execution halted: maximum depth reached."` output for every pending
call without executing any of them (all executions happened at strictly
smaller depths), submits those synthetic results, and terminates after
exactly one extra model round-trip (`N + 2` in total).  The legacy Chat
Completions flow instead stops at the depth limit with no extra round-trip
(`N + 1` in total), executing none of the pending calls and returning the
last content with the `"Tool chain limit reached; unable to continue."`
suffix rather than submitting synthetic results. -/
theorem claim_c2_depth_halt_amended (N : Nat) (sysPrompt userText : String)
    (replies : Nat → ChatReply)
    (ex : Nat → Nat → ChatToolCall → Except String String)
    (replies2 : Nat → RespReply)
    (ex2 : Nat → Nat → RespCall → Except String String)
    (h1 : ∀ t, (replies t).toolCalls ≠ [])
    (h2 : ∀ t, ∃ c ∈ (replies2 t).calls, optTruthy c.name = true) :
    ((run_responses_flow replies2 ex2 N).halted = true ∧
      (run_responses_flow replies2 ex2 N).trips = N + 2 ∧
      (run_responses_flow replies2 ex2 N).submitted.getLast? =
        some (haltOutputs (replies2 N).calls) ∧
      (∀ p ∈ (run_responses_flow replies2 ex2 N).execs, p.1 < N)) ∧
    ((run_chat_flow sysPrompt userText replies ex N).trips = N + 1 ∧
      (∀ p ∈ (run_chat_flow sysPrompt userText replies ex N).execs,
        p.1 < N) ∧
      chainLimitSuffix.data <:+
        (run_chat_flow sysPrompt userText replies ex N).text.data) := by
  constructor
  · have := respLoop_halts replies2 ex2 N h2 N 0 1 [] [] rfl (by omega) rfl
      (by intro p hp; exact absurd hp (List.not_mem_nil p))
    simpa [run_responses_flow] using this
  · have := chatLoop_halts replies ex N h1 N 0 0
      ((if sysPrompt = "" then [] else [ChatMsg.system sysPrompt]) ++
        [ChatMsg.user userText]) [] rfl (by omega) rfl
      (by intro p hp; exact absurd hp (List.not_mem_nil p))
    simpa [run_chat_flow] using this

/-- C2 counterexample: in the Chat Completions flow with
`max_tool_chain = 1` and a model that requests a call on every round, the
turn ends after 2 round-trips — not the 3 the claimed extra round-trip would
give — and the transcript holds no result for the pending call of the final
round (call id `"1"`): no synthetic halted result is submitted, the text is
just suffixed. -/
theorem claim_c2_depth_halt_counterexample :
    (run_chat_flow "" "hi" chatAlwaysCalls chatExecOk 1).trips = 2 ∧
    (run_chat_flow "" "hi" chatAlwaysCalls chatExecOk 1).messages =
      [ChatMsg.user "hi",
        ChatMsg.assistant "" [⟨some "0", some "memory_query", "\x7b\x7d"⟩],
        ChatMsg.tool (some "0") "done"] ∧
    (run_chat_flow "" "hi" chatAlwaysCalls chatExecOk 1).text =
      chainLimitSuffix := by
  rw [run_chat_flow, chatLoop]
  simp only [chatAlwaysCalls, chatProcessCalls, chatExecOk, optTruthy]
  norm_num
  rw [chatLoop]
  simp [chatAlwaysCalls]
  decide

/-- C2 witness: the amended theorem applied to always-requesting reply
streams with `max_tool_chain = 1`. -/
theorem claim_c2_depth_halt_witness :
    ((run_responses_flow respAlwaysCalls respExecOk 1).halted = true ∧
      (run_responses_flow respAlwaysCalls respExecOk 1).trips = 1 + 2 ∧
      (run_responses_flow respAlwaysCalls respExecOk 1).submitted.getLast? =
        some (haltOutputs (respAlwaysCalls 1).calls) ∧
      (∀ p ∈ (run_responses_flow respAlwaysCalls respExecOk 1).execs,
        p.1 < 1)) ∧
    ((run_chat_flow "" "hi" chatAlwaysCalls chatExecOk 1).trips = 1 + 1 ∧
      (∀ p ∈ (run_chat_flow "" "hi" chatAlwaysCalls chatExecOk 1).execs,
        p.1 < 1) ∧
      chainLimitSuffix.data <:+
        (run_chat_flow "" "hi" chatAlwaysCalls chatExecOk 1).text.data) :=
  claim_c2_depth_halt_amended 1 "" "hi" chatAlwaysCalls chatExecOk
    respAlwaysCalls respExecOk
    (fun t => by simp [chatAlwaysCalls])
    (fun t => ⟨⟨some (toString t), none, some "memory_query", "\x7b\x7d"⟩,
      by simp [respAlwaysCalls], by simp [optTruthy]⟩)

theorem append_left_ne_empty (s t : String) (h : s ≠ "") : s ++ t ≠ "" := by
  intro heq
  have hd : s.data ++ t.data = ([] : List Char) := by
    have h2 := congrArg String.data heq
    rwa [String.data_append] at h2
  have hs : s.data = [] := (List.append_eq_nil.mp hd).1
  exact h (String.ext (by simpa using hs))

/-- The invariant every formatted tool call satisfies: wrapper type
`"function"`, a truthy call id, and a non-empty string `arguments` value. -/
def FmtCallInv (f : FmtCall) : Prop :=
  f.ctype = "function" ∧ f.callId.truthy = true ∧
    ∃ s, f.fargs = JV.str s ∧ s ≠ ""

theorem ite_callId_truthy (v : JV) (fresh : String) :
    (if v.truthy = true then v else JV.str ("call_" ++ fresh)).truthy
      = true := by
  by_cases h : v.truthy = true
  · rw [if_pos h]; exact h
  · rw [if_neg h]
    simp only [JV.truthy, decide_eq_true_eq]
    exact append_left_ne_empty "call_" fresh (by decide)

theorem ite_argsStr_ne_empty (s : String) :
    (if s = "" then "\x7b\x7d" else s) ≠ "" := by
  by_cases h : s = ""
  · rw [if_pos h]; decide
  · rw [if_neg h]; exact h

theorem format_tool_call_some_inv {toolCall : JV} {item : Option JV}
    {fresh : String} {f : FmtCall}
    (h : format_tool_call toolCall item fresh = some f) : FmtCallInv f := by
  cases toolCall with
  | obj kvs =>
    simp only [format_tool_call, Option.some.injEq] at h
    subst h
    exact ⟨rfl,
      ite_callId_truthy
        (if ((JV.obj kvs).get "id").truthy = true then (JV.obj kvs).get "id"
          else itemIdOfJV item) fresh,
      ⟨_, rfl, ite_argsStr_ne_empty
        (formatArgsString ((funcPayloadOf (JV.obj kvs)).get "arguments"))⟩⟩
  | null => simp [format_tool_call] at h
  | bool b => simp [format_tool_call] at h
  | num n => simp [format_tool_call] at h
  | str s => simp [format_tool_call] at h
  | arr xs => simp [format_tool_call] at h

theorem collectContent_inv (hexes : Nat → String) (item : JV) :
    ∀ (cs : List JV) (n : Nat) (f : FmtCall),
      f ∈ (collectContent hexes item cs n).1 → FmtCallInv f := by
  intro cs
  induction cs with
  | nil => intro n f hf; exact absurd hf (List.not_mem_nil f)
  | cons c cs ih =>
    intro n f hf
    cases c with
    | obj kvs =>
      by_cases ht : (JV.get (.obj kvs) "type").isStr "tool_call" = true
      · simp only [collectContent, ht, if_pos] at hf
        cases hfmt : format_tool_call (JV.get (.obj kvs) "tool_call")
            (some item) (hexes n) with
        | some f0 =>
          rw [hfmt] at hf
          cases hrec : collectContent hexes item cs (n + 1) with
          | mk rest n1 =>
            rw [hrec] at hf
            simp only [List.mem_cons] at hf
            rcases hf with h | h
            · subst h
              exact format_tool_call_some_inv hfmt
            · exact ih (n + 1) f (by rw [hrec]; exact h)
        | none =>
          rw [hfmt] at hf
          cases hrec : collectContent hexes item cs (n + 1) with
          | mk rest n1 =>
            rw [hrec] at hf
            exact ih (n + 1) f (by rw [hrec]; exact hf)
      · simp only [collectContent, ht, Bool.false_eq_true, if_false] at hf
        exact ih n f hf
    | null => exact ih n f (by simpa [collectContent] using hf)
    | bool b => exact ih n f (by simpa [collectContent] using hf)
    | num m => exact ih n f (by simpa [collectContent] using hf)
    | str s => exact ih n f (by simpa [collectContent] using hf)
    | arr xs => exact ih n f (by simpa [collectContent] using hf)

theorem collectItem_inv (hexes : Nat → String) (item : JV) (n : Nat)
    (f : FmtCall) (hf : f ∈ (collectItem hexes item n).1) : FmtCallInv f := by
  unfold collectItem at hf
  by_cases htxt : (JV.isStr (item.get "type") "output_text" = true ∨
      JV.isStr (item.get "type") "text" = true ∨
      JV.isStr (item.get "type") "output_json" = true)
  · rw [if_pos htxt] at hf
    exact absurd hf (List.not_mem_nil f)
  · rw [if_neg htxt] at hf
    cases hcc : collectContent hexes item (contentList item) n with
    | mk fromContent n1 =>
      simp only [hcc] at hf
      by_cases htc : (item.get "type").isStr "tool_call" = true
      · rw [if_pos htc] at hf
        cases hfmt : format_tool_call (item.get "tool_call") (some item)
            (hexes n1) with
        | some f0 =>
          rw [hfmt] at hf
          simp only [List.mem_append, List.mem_singleton] at hf
          rcases hf with h | h
          · exact collectContent_inv hexes item (contentList item) n f
              (by rw [hcc]; exact h)
          · subst h
            exact format_tool_call_some_inv hfmt
        | none =>
          rw [hfmt] at hf
          exact collectContent_inv hexes item (contentList item) n f
            (by rw [hcc]; exact hf)
      · rw [if_neg htc] at hf
        exact collectContent_inv hexes item (contentList item) n f
          (by rw [hcc]; exact hf)

theorem collectItems_inv (hexes : Nat → String) :
    ∀ (items : List JV) (n : Nat) (f : FmtCall),
      f ∈ (collectItems hexes items n).1 → FmtCallInv f := by
  intro items
  induction items with
  | nil => intro n f hf; exact absurd hf (List.not_mem_nil f)
  | cons it its ih =>
    intro n f hf
    simp only [collectItems] at hf
    cases h1 : collectItem hexes it n with
    | mk here n1 =>
      rw [h1] at hf
      cases h2 : collectItems hexes its n1 with
      | mk rest n2 =>
        rw [h2] at hf
        simp only [List.mem_append] at hf
        rcases hf with h | h
        · exact collectItem_inv hexes it n f (by rw [h1]; exact h)
        · exact ih n1 f (by rw [h2]; exact h)

theorem collectTop_inv (hexes : Nat → String) :
    ∀ (ts : List JV) (n : Nat) (f : FmtCall),
      f ∈ (collectTop hexes ts n).1 → FmtCallInv f := by
  intro ts
  induction ts with
  | nil => intro n f hf; exact absurd hf (List.not_mem_nil f)
  | cons t ts ih =>
    intro n f hf
    simp only [collectTop] at hf
    cases hfmt : format_tool_call t none (hexes n) with
    | some f0 =>
      rw [hfmt] at hf
      cases hrec : collectTop hexes ts (n + 1) with
      | mk rest n1 =>
        rw [hrec] at hf
        simp only [List.mem_cons] at hf
        rcases hf with h | h
        · subst h
          exact format_tool_call_some_inv hfmt
        · exact ih (n + 1) f (by rw [hrec]; exact h)
    | none =>
      rw [hfmt] at hf
      cases hrec : collectTop hexes ts (n + 1) with
      | mk rest n1 =>
        rw [hrec] at hf
        exact ih (n + 1) f (by rw [hrec]; exact hf)

theorem responses_to_chat_like_toolCalls (hexes : Nat → String) (resp : JV) :
    (responses_to_chat_like hexes resp).toolCalls =
      (collectItems hexes (outputItems resp) 0).1 ++
        (collectTop hexes (topToolCallList resp)
          (collectItems hexes (outputItems resp) 0).2).1 := by
  unfold responses_to_chat_like
  cases h1 : collectItems hexes (outputItems resp) 0 with
  | mk a n =>
    cases h2 : collectTop hexes (topToolCallList resp) n with
    | mk b m => simp [h1, h2]

/-- C10 (amended): every tool call in the output of
`responses_to_chat_like` (over payloads whose output items are dictionaries —
a non-dictionary item crashes the source's attribute probing) has wrapper
type `"function"`, a truthy (non-empty) id, and a non-empty string-valued
`function.arguments`; when neither the tool-call payload nor its enclosing
item provides a truthy id, the id is the fresh synthesized
`"call_<hex>"` identifier.  Dict/list arguments are JSON-encoded and
absent/`None` arguments become `"{}"`; any other value passes through `str`,
except that a value whose stringification is empty (the empty string) is
replaced by `"{}"` by the final `or "{}"` fallback — it is not preserved
as its own stringification. -/
theorem claim_c10_adapter_amended :
    (∀ (hexes : Nat → String) (resp : JV),
      (∀ it ∈ outputItems resp, it.isObj = true) →
      ∀ f ∈ (responses_to_chat_like hexes resp).toolCalls,
        f.ctype = "function" ∧ f.callId.truthy = true ∧
          ∃ s, f.fargs = JV.str s ∧ s ≠ "") ∧
    (∀ (toolCall : JV) (item : Option JV) (fresh : String) (f : FmtCall),
      format_tool_call toolCall item fresh = some f →
      (toolCall.get "id").truthy = false → (itemIdOfJV item).truthy = false →
      f.callId = .str ("call_" ++ fresh)) := by
  constructor
  · intro hexes resp _ f hf
    rw [responses_to_chat_like_toolCalls] at hf
    rcases List.mem_append.mp hf with h | h
    · exact collectItems_inv hexes (outputItems resp) 0 f h
    · exact collectTop_inv hexes (topToolCallList resp)
        (collectItems hexes (outputItems resp) 0).2 f h
  · intro toolCall item fresh f hfmt hid hitem
    cases toolCall with
    | obj kvs =>
      simp only [format_tool_call, Option.some.injEq] at hfmt
      subst hfmt
      simp only [hid, Bool.false_eq_true, if_false, hitem]
    | null => simp [format_tool_call] at hfmt
    | bool b => simp [format_tool_call] at hfmt
    | num n => simp [format_tool_call] at hfmt
    | str s => simp [format_tool_call] at hfmt
    | arr xs => simp [format_tool_call] at hfmt

/-- C10 counterexample: a tool call whose `arguments` value is the empty
string is emitted with `arguments = "{}"` — not with its stringification,
which is the empty string. -/
theorem claim_c10_adapter_counterexample :
    (responses_to_chat_like hexStream respEmptyArgs).toolCalls =
      [⟨.str "call_x", "function", .str "execute_service",
        .str "\x7b\x7d"⟩] ∧
    pyToStr (.str "") = "" ∧ "\x7b\x7d" ≠ pyToStr (.str "") := by
  refine ⟨rfl, rfl, by decide⟩

/-- C10 witness: the amended theorem applied to the concrete payload with an
empty-string `arguments`, and to a tool call with no id anywhere, which gets
the synthesized `"call_<hex>"` identifier. -/
theorem claim_c10_adapter_witness :
    ((⟨.str "call_x", "function", .str "execute_service",
        .str "\x7b\x7d"⟩ : FmtCall).ctype = "function" ∧
      (⟨.str "call_x", "function", .str "execute_service",
        .str "\x7b\x7d"⟩ : FmtCall).callId.truthy = true ∧
      ∃ s, (⟨.str "call_x", "function", .str "execute_service",
        .str "\x7b\x7d"⟩ : FmtCall).fargs = JV.str s ∧ s ≠ "") ∧
    (⟨.str ("call_" ++ "0a1b2c3d"), "function", .str "memory_query",
        .str "\x7b\x7d"⟩ : FmtCall).callId =
      .str ("call_" ++ "0a1b2c3d") :=
  ⟨claim_c10_adapter_amended.1 hexStream respEmptyArgs (by decide)
      ⟨.str "call_x", "function", .str "execute_service", .str "\x7b\x7d"⟩
      (List.mem_singleton_self _),
    claim_c10_adapter_amended.2
      (.obj [("name", .str "memory_query")]) none "0a1b2c3d"
      ⟨.str ("call_" ++ "0a1b2c3d"), "function", .str "memory_query",
        .str "\x7b\x7d"⟩ rfl rfl rfl⟩

end EOC
